import Mathlib

/-!
Action Initiative: patches of the combat class (`scripts/Combat.js`).

A shallow embedding of the patched combat methods: the sort comparator
`_sortCombatants`, the round hook `combatRoundHook` with the wrapped `resetAll`,
the bulk entry points `rollAll` / `rollNPC` and the mixed wrap `rollInitiative`.

Asynchronous functions are embedded as functions from the combat state to a `Run`:
the state they leave behind, the trace of calls they made to the host and to the
collaborator modules, and the error they threw, if any.
-/

namespace ActionInitiative

/-! ## Numbers and initiative values -/

/-- A number of the scripting language, a double. Every finite double is an integer multiple
of `2 ^ (-1074)`, the smallest positive double: `fin n` is the value `n * 2 ^ (-1074)`. The
other values are the two infinities and NaN. The two zeros are not told apart: both are
falsy and neither is below or above zero. -/
inductive JSNum where
  | fin (n : Int)
  | posInf
  | negInf
  | nan
deriving DecidableEq, Repr

namespace JSNum

/-- The number of units `2 ^ (-1074)` in the value 1. -/
def unitsPerOne : Int := 2 ^ 1074

/-- The double with the integer value `k`. -/
def ofInt (k : Int) : JSNum := fin (k * unitsPerOne)

/-- Rounding of a magnitude, in units of `2 ^ (-1074)`, to 53 significant bits: to the
nearest such magnitude, and to the one with an even significand when two are equally near. -/
def roundNat (a : Nat) : Nat :=
  if a < 2 ^ 53 then a
  else
    let k := a.log2 - 52
    let q := a / 2 ^ k
    let r := a % 2 ^ k
    if r < 2 ^ (k - 1) then q * 2 ^ k
    else if r = 2 ^ (k - 1) ∧ q % 2 = 0 then q * 2 ^ k
    else (q + 1) * 2 ^ k

/-- The double nearest to the exact value `n * 2 ^ (-1074)`: the rounded magnitude with the
sign of `n`, and an infinity when the rounded magnitude reaches `2 ^ 1024`. -/
def ofExact (n : Int) : JSNum :=
  if 2 ^ 2098 ≤ roundNat n.natAbs then (if n < 0 then negInf else posInf)
  else fin (if n < 0 then -(roundNat n.natAbs : Int) else (roundNat n.natAbs : Int))

/-- Binary minus on numbers: the exact difference of two finite values, rounded. -/
def sub : JSNum → JSNum → JSNum
  | fin a, fin b => ofExact (a - b)
  | fin _, posInf => negInf
  | fin _, negInf => posInf
  | fin _, nan => nan
  | posInf, fin _ => posInf
  | posInf, posInf => nan
  | posInf, negInf => posInf
  | posInf, nan => nan
  | negInf, fin _ => negInf
  | negInf, posInf => negInf
  | negInf, negInf => nan
  | negInf, nan => nan
  | nan, _ => nan

/-- Truthiness of a number: everything except zero and NaN. -/
def truthy : JSNum → Bool
  | fin n => n != 0
  | posInf => true
  | negInf => true
  | nan => false

/-- The operator `x || y` on numbers: `x` when it is truthy, otherwise `y`. -/
def or (x y : JSNum) : JSNum := if x.truthy then x else y

/-- The number is below zero. -/
def isNeg : JSNum → Bool
  | fin n => decide (n < 0)
  | negInf => true
  | _ => false

/-- The number is above zero. -/
def isPos : JSNum → Bool
  | fin n => decide (0 < n)
  | posInf => true
  | _ => false

/-- Sign of a number: -1, 0 or 1 (0 also for NaN). -/
def sign (x : JSNum) : Int := if x.isNeg then -1 else if x.isPos then 1 else 0

end JSNum

/-- The value held by `combatant.initiative`: `null`, a number, or a string. -/
inductive Initiative where
  | null
  | num (x : JSNum)
  | str (s : String)
deriving DecidableEq, Repr

/-- Functions of the host runtime that the comparator calls and whose code is not part
of this module: the numeric coercion of a string and the locale-aware comparison of
two strings. -/
structure Host where
  /-- Numeric coercion of a string (NaN when the string is not a number). -/
  strToNum : String → JSNum
  /-- The method `s.localeCompare(t)`: negative, zero or positive. -/
  localeCompare : String → String → Int

/-- Numeric coercion of an initiative value, as applied by the binary minus. -/
def toNumber (H : Host) : Initiative → JSNum
  | .null => .fin 0
  | .num x => x
  | .str s => H.strToNum s

/-- The host helper `Number.isNumeric`: false for `null` and for the empty string,
otherwise whether the numeric coercion of the value is not NaN. -/
def isNumeric (H : Host) : Initiative → Bool
  | .null => false
  | .num x => x != .nan
  | .str s => s != "" && H.strToNum s != .nan

/-! ## Strings as sequences of code units -/

/-- The UTF-16 code units of one character: one unit below `0x10000`, otherwise a pair of
surrogates. -/
def charUnits (c : Char) : List Nat :=
  if c.toNat < 0x10000 then [c.toNat]
  else [0xD800 + (c.toNat - 0x10000) / 0x400, 0xDC00 + (c.toNat - 0x10000) % 0x400]

/-- The UTF-16 code units of a string, which is what the scripting language compares. -/
def utf16 (s : String) : List Nat := s.toList.flatMap charUnits

/-- The comparison `<` of two sequences of code units: decided by the first position at
which they differ, a proper initial segment being the smaller. -/
def codeUnitsLt : List Nat → List Nat → Bool
  | [], [] => false
  | [], _ :: _ => true
  | _ :: _, [] => false
  | x :: xs, y :: ys => if x < y then true else if y < x then false else codeUnitsLt xs ys

/-- The comparison `s < t` of two strings of the scripting language. -/
def jsStringLt (s t : String) : Bool := codeUnitsLt (utf16 s) (utf16 t)

/-! ## Data model -/

/-- An error thrown by the module's own code. -/
inductive JSError where
  /-- A property of `undefined` or `null` was read. -/
  | typeError (what : String)
deriving DecidableEq, Repr

/-- Selections recorded for a combatant (always a truthy object). -/
structure Selections where
  actions : List String
deriving DecidableEq, Repr

/-- Value of the flag that stores the initiative selections in a combatant's source
data: never set, set to an explicit `null`, or holding selections. -/
inductive FlagValue where
  | undefined
  | null
  | value (s : Selections)
deriving DecidableEq, Repr

/-- The actor of a combatant: its id and whether it is token-specific. -/
structure Actor where
  id : String
  isToken : Bool
deriving DecidableEq, Repr

/-- The token of a combatant, with its display name. -/
structure Token where
  name : String
deriving DecidableEq, Repr

/-- The initiative handler attached to a combatant. `initiativeSelections` is the
property holding the recorded selections; `initiativeSelection` is the property of
that name, which the grouped-actor filter of `rollInitiative` reads. -/
structure InitiativeHandler where
  initiativeSelection : Option Selections
  initiativeSelections : Option Selections
deriving DecidableEq, Repr

/-- A combatant, with the attributes the patches read or write. -/
structure Combatant where
  id : String
  initiative : Initiative
  isNPC : Bool
  /-- The property `actor`; `none` is `null`. -/
  actor : Option Actor
  /-- The property `token`; `none` is `null`. -/
  token : Option Token
  /-- The flag of this module holding the initiative selections. -/
  flagInitiativeSelections : FlagValue
  initiativeHandler : InitiativeHandler
deriving DecidableEq, Repr

/-- A combat: the ordered collection of its combatants. -/
structure Combat where
  combatants : List Combatant
deriving DecidableEq, Repr

/-- The lookup `combatants.get(id)`; `none` is `undefined`. -/
def Combat.get (combat : Combat) (id : String) : Option Combatant :=
  combat.combatants.find? (fun c => c.id == id)

/-! ## The sort comparator -/

/-- The initiative as the comparator uses it: the value itself when it is numeric,
negative infinity otherwise (`ia` and `ib` in the source). -/
def initiativeOrNegInf (H : Host) (i : Initiative) : JSNum :=
  if isNumeric H i then toNumber H i else .negInf

/-- The override of `_sortCombatants`:
`(ia - ib) || a.token.name.localeCompare(b.token.name) || (a.id > b.id ? 1 : -1)`.
The names are read only when `ia - ib` is falsy; reading `a.token.name`, and then
`b.token.name`, throws when the token is `null`. -/
def _sortCombatants (H : Host) (a b : Combatant) : Except JSError JSNum :=
  let ia := initiativeOrNegInf H a.initiative
  let ib := initiativeOrNegInf H b.initiative
  if (ia.sub ib).truthy then .ok (ia.sub ib)
  else
    match a.token with
    | none => .error (.typeError "a.token is null")
    | some ta =>
      match b.token with
      | none => .error (.typeError "b.token is null")
      | some tb =>
        .ok ((JSNum.ofInt (H.localeCompare ta.name tb.name)).or
          (if jsStringLt b.id a.id then JSNum.ofInt 1 else JSNum.ofInt (-1)))

/-- The array is in an order a sort by `_sortCombatants` can leave it in: for every element
and every later one the comparator returns a number that is not above zero. -/
def SortedByComparator (H : Host) (l : List Combatant) : Prop :=
  l.Pairwise (fun a b => ∃ r, _sortCombatants H a b = .ok r ∧ r.isPos = false)

/-- The combatant `x` occurs in `l` at an earlier position than `y`. -/
def OccursBefore (x y : Combatant) (l : List Combatant) : Prop :=
  ∃ l1 l2 l3, l = l1 ++ x :: (l2 ++ y :: l3)

/-! ## Calls, traces and collaborators -/

/-- The options object handed to a roll: `actor` and the fields passed on to the host
(`formula`, `updateTurn`). The default `{}` is `Opts.empty`. -/
structure Opts where
  actor : Option Actor
  formula : Option String
  updateTurn : Option Bool
deriving DecidableEq, Repr

/-- The default options object `{}`. -/
def Opts.empty : Opts := ⟨none, none, none⟩

/-- A call made to the host or to a collaborator module, with its arguments. -/
inductive Event where
  /-- The call `c.updateSource` that sets the initiative-selections flag of `id` to `null`. -/
  | updateSource (id : String)
  /-- The underlying `resetAll`, with the combat as it is when the call is made. -/
  | wrappedResetAll (snapshot : Combat)
  /-- The collaborator `CombatantInitiativeHandler.setMultipleCombatants(ids, opts)`. -/
  | selectMultipleCombatants (ids : List String) (opts : Opts)
  /-- The collaborator `CombatantInitiativeHandler._setActionsForMultipleCombatants(ids)`. -/
  | setActionsForMultipleCombatants (ids : List String)
  /-- The handler method `initiativeDialogs()` of combatant `id`. -/
  | initiativeDialogs (id : String)
  /-- The handler method `setInitiativeSelections(sel)` of combatant `id`. -/
  | setInitiativeSelections (id : String) (sel : Selections)
  /-- The underlying `rollInitiative(ids, opts)`. -/
  | wrappedRollInitiative (ids : List String) (opts : Opts)
deriving DecidableEq, Repr

/-- What a call leaves behind: the combat, the calls made in order, and the error thrown
(`none` when the call returned). -/
structure Run where
  combat : Combat
  trace : List Event
  error : Option JSError
deriving DecidableEq, Repr

/-- The setting and the collaborators whose code is not part of this module, as the
module sees them: what each call returns (and, for the two group dialogs, the combat
it leaves behind). -/
structure Collaborators where
  /-- The value of `Settings.get(Settings.KEYS.GROUP_ACTORS)`. -/
  groupActors : Bool
  /-- The collaborator `setMultipleCombatants(ids, opts)`: the set of ids it resolves to
  (`none` for a falsy result) and the combat afterwards. -/
  selectMultipleCombatants : Combat → List String → Opts → Option (List String) × Combat
  /-- The collaborator `_setActionsForMultipleCombatants(ids)`: whether the result is truthy,
  and the combat afterwards. -/
  setActionsForMultipleCombatants : Combat → List String → Bool × Combat
  /-- The method `initiativeDialogs()` of the handler of combatant `id`: the selections it
  resolves to (`none` for a falsy result). -/
  initiativeDialogs : String → Option Selections
  /-- The underlying `resetAll` of the host, as a function of the combat. -/
  wrappedResetAll : Combat → Combat

/-! ## Sets of ids -/

/-- The method `set.add(id)` on a set kept as the list of its elements in insertion order. -/
def setAdd (s : List String) (id : String) : List String :=
  if id ∈ s then s else s ++ [id]

/-- The constructor `new Set(ids)`. -/
def mkSet (ids : List String) : List String := ids.foldl setAdd []

/-- The method `set.delete(id)`. -/
def setDelete (s : List String) (id : String) : List String :=
  s.filter (fun x => x != id)

/-! ## Round reset -/

/-- The host method `c.updateSource` applied to the initiative-selections flag with the
value `null`. -/
def updateSourceNull (c : Combatant) : Combatant :=
  { c with flagInitiativeSelections := .null }

/-- The loop of `resetAll` over the combatants still to visit: each one has its flag set
to `null`, and the call is recorded. -/
def resetLoop : List Combatant → List Combatant × List Event
  | [] => ([], [])
  | c :: rest =>
    let r := resetLoop rest
    (updateSourceNull c :: r.1, .updateSource c.id :: r.2)

/-- The wrap of `resetAll`: set every combatant's flag to `null`, then return `wrapped()`. -/
def resetAll (env : Collaborators) (combat : Combat) : Run :=
  let r := resetLoop combat.combatants
  let snapshot : Combat := ⟨r.1⟩
  ⟨env.wrappedResetAll snapshot, r.2 ++ [.wrappedResetAll snapshot], none⟩

/-- The hook `combatRoundHook(combat, _updateData, opts)`; `direction` is `opts.direction`,
`none` when the property is absent. -/
def combatRoundHook (env : Collaborators) (combat : Combat) (direction : Option Int) : Run :=
  match direction with
  | some d => if d < 0 then ⟨combat, [], none⟩ else resetAll env combat
  | none => resetAll env combat

/-! ## Rolling initiative -/

/-- The filter of the grouped-actor step,
`c => c.actor.id === combatant.actor.id && !c[MODULE_ID].initiativeHandler.initiativeSelection`,
over the combatants still to visit; reading `c.actor.id` throws when `c.actor` is `null`. -/
def sameActorFilter (actor : Actor) : List Combatant → Except JSError (List Combatant)
  | [] => .ok []
  | c :: rest =>
    match c.actor with
    | none => .error (.typeError "c.actor is null")
    | some a =>
      match sameActorFilter actor rest with
      | .error e => .error e
      | .ok kept =>
        if a.id == actor.id && c.initiativeHandler.initiativeSelection.isNone
        then .ok (c :: kept) else .ok kept

/-- The grouped-actor step of `rollInitiative` up to the group dialog: `.ok (some ids)` when
the dialog is to be requested for `ids`, `.ok none` when the step does nothing, and an error
when the step throws. -/
def groupCandidates (env : Collaborators) (combat : Combat) (combatantIds : List String)
    (opts : Opts) : Except JSError (Option (List String)) :=
  if opts.actor.isNone && combatantIds.length == 1 && env.groupActors then
    match combatantIds.head? with
    | none => .ok none
    | some id =>
      match combat.get id with
      | none => .error (.typeError "combatant is undefined")
      | some combatant =>
        match combatant.actor with
        | none => .error (.typeError "combatant.actor is null")
        | some actor =>
          if actor.isToken then
            match sameActorFilter actor combat.combatants with
            | .error e => .error e
            | .ok combatants =>
              if combatants.length != 0 then .ok (some (combatants.map (fun c => c.id)))
              else .ok none
          else .ok none
  else .ok none

/-- Modelled from the spec: the handler method `setInitiativeSelections`, which lives in the
initiative-handler module; it persists the selections on the handler of combatant `id`. -/
def persistSelections (combat : Combat) (id : String) (sel : Selections) : Combat :=
  ⟨combat.combatants.map (fun c =>
    if c.id == id then
      { c with initiativeHandler := { c.initiativeHandler with initiativeSelections := some sel } }
    else c)⟩

/-- The state of the per-combatant loop: the combat, the working set and the calls so far. -/
structure LoopState where
  combat : Combat
  ids : List String
  trace : List Event
deriving DecidableEq, Repr

/-- One pass of the body of the per-combatant loop, for `combatantId`. -/
def loopBody (env : Collaborators) (st : LoopState) (combatantId : String) : LoopState :=
  match st.combat.get combatantId with
  | none => st
  | some c =>
    if c.initiativeHandler.initiativeSelections.isSome then st
    else
      match env.initiativeDialogs combatantId with
      | none =>
        { st with ids := setDelete st.ids combatantId,
                  trace := st.trace ++ [.initiativeDialogs combatantId] }
      | some selections =>
        { st with combat := persistSelections st.combat combatantId selections,
                  trace := st.trace ++ [.initiativeDialogs combatantId,
                                        .setInitiativeSelections combatantId selections] }

/-- The per-combatant loop `for ( const combatantId of combatantIds )` followed by the final
`if ( !combatantIds.size ) return; return wrapped([...combatantIds.values()], opts)`.
The loop deletes only the id it is visiting, so it visits the ids the set held on entry. -/
def dialogsThenRoll (env : Collaborators) (combat : Combat) (combatantIds : List String)
    (opts : Opts) (trace : List Event) : Run :=
  let st := combatantIds.foldl (loopBody env) ⟨combat, combatantIds, trace⟩
  if st.ids.length == 0 then ⟨st.combat, st.trace, none⟩
  else ⟨st.combat, st.trace ++ [.wrappedRollInitiative st.ids opts], none⟩

/-- The working set after `newCombatantIds.forEach(id => combatantIds.add(id))`. -/
def addAll (combatantIds newCombatantIds : List String) : List String :=
  newCombatantIds.foldl setAdd combatantIds

/-- The mixed wrap of `rollInitiative(wrapped, combatantIds, opts)`. -/
def rollInitiative (env : Collaborators) (combat : Combat) (combatantIds : List String)
    (opts : Opts) : Run :=
  let combatantIds := mkSet combatantIds
  match groupCandidates env combat combatantIds opts with
  | .error e => ⟨combat, [], some e⟩
  | .ok none => dialogsThenRoll env combat combatantIds opts []
  | .ok (some newCombatantIds) =>
    let res := env.setActionsForMultipleCombatants combat newCombatantIds
    if res.1 then
      dialogsThenRoll env res.2 (addAll combatantIds newCombatantIds) opts
        [.setActionsForMultipleCombatants newCombatantIds]
    else ⟨res.2, [.setActionsForMultipleCombatants newCombatantIds], none⟩

/-- The helper `setMultipleCombatants(combatantIds, _opts)`: ask the collaborator, return when
the result is falsy or empty, otherwise call the combat's `rollInitiative` with the ids of the
set and no options. -/
def setMultipleCombatants (env : Collaborators) (combat : Combat) (combatantIds : List String)
    (opts : Opts) : Run :=
  let res := env.selectMultipleCombatants combat combatantIds opts
  match res.1 with
  | none => ⟨res.2, [.selectMultipleCombatants combatantIds opts], none⟩
  | some chosen =>
    if (mkSet chosen).length == 0 then
      ⟨res.2, [.selectMultipleCombatants combatantIds opts], none⟩
    else
      let r := rollInitiative env res.2 (mkSet chosen) Opts.empty
      ⟨r.combat, .selectMultipleCombatants combatantIds opts :: r.trace, r.error⟩

/-- The ids `rollAll` computes: `combatants.filter(c => c.initiative === null).map(c => c.id)`. -/
def rollAllIds (combat : Combat) : List String :=
  (combat.combatants.filter (fun c => c.initiative == .null)).map (fun c => c.id)

/-- The ids `rollNPC` computes:
`combatants.filter(c => c.isNPC && c.initiative === null).map(c => c.id)`. -/
def rollNPCIds (combat : Combat) : List String :=
  (combat.combatants.filter (fun c => c.isNPC && c.initiative == .null)).map (fun c => c.id)

/-- The override of `rollAll(options)`. -/
def rollAll (env : Collaborators) (combat : Combat) (options : Opts) : Run :=
  setMultipleCombatants env combat (rollAllIds combat) options

/-- The override of `rollNPC(options)`. -/
def rollNPC (env : Collaborators) (combat : Combat) (options : Opts) : Run :=
  setMultipleCombatants env combat (rollNPCIds combat) options


/-- The combats with which the underlying `resetAll` was called in a trace. -/
def resetCalls : List Event → List Combat
  | [] => []
  | .wrappedResetAll snapshot :: rest => snapshot :: resetCalls rest
  | _ :: rest => resetCalls rest

/-- The id lists and options with which the collaborator `setMultipleCombatants` was called
in a trace. -/
def selectCalls : List Event → List (List String × Opts)
  | [] => []
  | .selectMultipleCombatants ids opts :: rest => (ids, opts) :: selectCalls rest
  | _ :: rest => selectCalls rest

/-- The id lists and options with which the underlying `rollInitiative` was called in a
trace. -/
def rollCalls : List Event → List (List String × Opts)
  | [] => []
  | .wrappedRollInitiative ids opts :: rest => (ids, opts) :: rollCalls rest
  | _ :: rest => rollCalls rest

/-- The recorded selections of the combatant `id`: `none` when there is no such combatant,
`some none` when it has no recorded selections. -/
def selectionsOf (combat : Combat) (id : String) : Option (Option Selections) :=
  (combat.get id).map (fun c => c.initiativeHandler.initiativeSelections)

/-- The combatant `id` exists and has no recorded selections. -/
def lacksSelections (combat : Combat) (id : String) : Bool :=
  selectionsOf combat id == some none

/-- The dialog of the combatant `id` is requested (the combatant exists and has no recorded
selections) and returns a falsy result. -/
def dialogCanceled (env : Collaborators) (combat : Combat) (id : String) : Bool :=
  lacksSelections combat id && (env.initiativeDialogs id).isNone

/-- The calls made for the combatant `id` when it is asked for its selections: the dialog,
followed by the persisting of the selections when the dialog returns some. -/
def dialogCalls (env : Collaborators) (combat : Combat) (id : String) : List Event :=
  if lacksSelections combat id then
    match env.initiativeDialogs id with
    | none => [.initiativeDialogs id]
    | some sel => [.initiativeDialogs id, .setInitiativeSelections id sel]
  else []

/-- The id lists with which the group dialog `_setActionsForMultipleCombatants` was requested
in a trace. -/
def groupCalls : List Event → List (List String)
  | [] => []
  | .setActionsForMultipleCombatants ids :: rest => ids :: groupCalls rest
  | _ :: rest => groupCalls rest

/-! ## Sample data -/

/-- A host whose only numeric strings are "5" and "7" and that compares names by length. -/
def sampleHost : Host where
  strToNum := fun s => if s = "5" then .ofInt 5 else if s = "7" then .ofInt 7 else .nan
  localeCompare := fun s t => (s.length : Int) - (t.length : Int)

/-- A combatant with the given id, initiative and token name, no actor and no selections. -/
def sampleCombatant (id : String) (i : Initiative) (name : String) : Combatant :=
  ⟨id, i, false, none, some ⟨name⟩, .undefined, ⟨none, none⟩⟩

/-- A combatant with the given id and initiative that has no token. -/
def tokenlessCombatant (id : String) (i : Initiative) : Combatant :=
  ⟨id, i, false, none, none, .undefined, ⟨none, none⟩⟩

/-- The four combatants with initiatives null, 5, "x" and -1, in sorted order. -/
def sampleSorted : List Combatant :=
  [sampleCombatant "a" .null "Orc", sampleCombatant "c" (.str "x") "Wolf",
   sampleCombatant "d" (.num (.ofInt (-1))) "Bat", sampleCombatant "b" (.num (.ofInt 5)) "Imp"]

/-- Collaborators that confirm every dialog: grouping is enabled, the bulk selection returns
the ids it is offered, the group dialog is confirmed, and every combatant's dialog returns
the selections ["attack"]. -/
def sampleEnv : Collaborators where
  groupActors := true
  selectMultipleCombatants := fun combat ids _ => (some ids, combat)
  setActionsForMultipleCombatants := fun combat _ => (true, combat)
  initiativeDialogs := fun _ => some ⟨["attack"]⟩
  wrappedResetAll := fun combat => combat

/-- A combat of two combatants that both hold selections in their flag. -/
def sampleCombat : Combat :=
  ⟨[⟨"a", .num (.ofInt 12), false, some ⟨"goblin", true⟩, some ⟨"Orc"⟩, .value ⟨["attack"]⟩,
      ⟨none, some ⟨["attack"]⟩⟩⟩,
    ⟨"b", .null, true, some ⟨"hero", false⟩, some ⟨"Imp"⟩, .value ⟨["cast"]⟩, ⟨none, some ⟨["cast"]⟩⟩⟩]⟩

/-- The collaborators of `sampleEnv` with grouping disabled. -/
def ungroupedEnv : Collaborators := { sampleEnv with groupActors := false }

/-- The collaborators of `sampleEnv` with a group dialog that is canceled. -/
def groupCancelEnv : Collaborators :=
  { sampleEnv with setActionsForMultipleCombatants := fun combat _ => (false, combat) }

/-- The collaborators of `sampleEnv` where the dialog of combatant "b" is canceled. -/
def cancelBEnv : Collaborators :=
  { sampleEnv with
    initiativeDialogs := fun id => if id = "b" then none else some ⟨["attack"]⟩ }

/-- A token of the actor "goblin" that has not rolled and has made no selection. -/
def goblinA : Combatant :=
  ⟨"a", .null, true, some ⟨"goblin", true⟩, some ⟨"Goblin"⟩, .undefined, ⟨none, none⟩⟩

/-- A second token of the actor "goblin" that has already rolled this round: its selections
are recorded and its initiative is 7. The handler has no property `initiativeSelection`. -/
def goblinB : Combatant :=
  ⟨"b", .num (.ofInt 7), true, some ⟨"goblin", true⟩, some ⟨"Goblin"⟩, .value ⟨["attack"]⟩,
    ⟨none, some ⟨["attack"]⟩⟩⟩

/-- A second token of the actor "goblin" whose initiative 7 was entered by hand: it has no
selections at all. -/
def goblinManual : Combatant :=
  ⟨"b", .num (.ofInt 7), true, some ⟨"goblin", true⟩, some ⟨"Goblin"⟩, .undefined, ⟨none, none⟩⟩

/-- A third token of the actor "goblin" that has not rolled and has made no selection. -/
def goblinC : Combatant :=
  ⟨"c", .null, true, some ⟨"goblin", true⟩, some ⟨"Goblin"⟩, .undefined, ⟨none, none⟩⟩

/-- The combat of `goblinA` and `goblinB`. -/
def goblinCombat : Combat := ⟨[goblinA, goblinB]⟩

/-- The combat of `goblinA` and `goblinManual`. -/
def manualCombat : Combat := ⟨[goblinA, goblinManual]⟩

/-- The combat of three goblin tokens without selections. -/
def freshCombat : Combat := ⟨[goblinA, { goblinB with initiativeHandler := ⟨none, none⟩ }, goblinC]⟩

/-- A combat whose only combatant, "a", has no actor. -/
def actorlessCombat : Combat := ⟨[sampleCombatant "a" .null "Orc"]⟩

/-! ## Facts about numbers -/

theorem JSNum.unitsPerOne_pos : 0 < JSNum.unitsPerOne := by
  unfold JSNum.unitsPerOne; positivity

theorem JSNum.roundNat_zero : JSNum.roundNat 0 = 0 := by
  simp [JSNum.roundNat]

theorem JSNum.roundNat_pos (a : Nat) (ha : 0 < a) : 0 < JSNum.roundNat a := by
  unfold JSNum.roundNat
  by_cases h : a < 2 ^ 53
  · rw [if_pos h]; exact ha
  · rw [if_neg h]
    have hk : 2 ^ (a.log2 - 52) ≤ a :=
      le_trans (Nat.pow_le_pow_right (by norm_num) (Nat.sub_le _ _))
        (Nat.log2_self_le (Nat.pos_iff_ne_zero.mp ha))
    have hp : 0 < 2 ^ (a.log2 - 52) := by positivity
    have hq : 0 < a / 2 ^ (a.log2 - 52) := Nat.div_pos hk hp
    simp only []
    split_ifs
    · exact Nat.mul_pos hq hp
    · exact Nat.mul_pos hq hp
    · exact Nat.mul_pos (Nat.succ_pos _) hp

/-- A magnitude with at most 53 significant bits is a double: rounding leaves it as it is. -/
theorem JSNum.roundNat_exact (m j : Nat) (hm : m < 2 ^ 53) :
    JSNum.roundNat (m * 2 ^ j) = m * 2 ^ j := by
  unfold JSNum.roundNat
  by_cases h : m * 2 ^ j < 2 ^ 53
  · rw [if_pos h]
  · rw [if_neg h]
    have hne : m * 2 ^ j ≠ 0 := by
      intro h0; rw [h0] at h; exact h (by positivity)
    have hlt : m * 2 ^ j < 2 ^ (53 + j) := by
      rw [pow_add]
      exact Nat.mul_lt_mul_of_pos_right hm (by positivity)
    have hlog : (m * 2 ^ j).log2 < 53 + j := (Nat.log2_lt hne).mpr hlt
    have hkj : (m * 2 ^ j).log2 - 52 ≤ j := by omega
    have hdvd : 2 ^ ((m * 2 ^ j).log2 - 52) ∣ m * 2 ^ j :=
      Dvd.dvd.mul_left (pow_dvd_pow 2 hkj) m
    have hr : m * 2 ^ j % 2 ^ ((m * 2 ^ j).log2 - 52) = 0 := Nat.mod_eq_zero_of_dvd hdvd
    have hp : 0 < 2 ^ ((m * 2 ^ j).log2 - 52 - 1) := by positivity
    simp only [hr, hp, if_true]
    exact Nat.div_mul_cancel hdvd

theorem JSNum.ofExact_ne_nan (n : Int) : JSNum.ofExact n ≠ .nan := by
  unfold JSNum.ofExact
  split_ifs <;> simp

theorem JSNum.ofExact_zero : JSNum.ofExact 0 = .fin 0 := by
  have h : ¬ (2 ^ 2098 ≤ JSNum.roundNat (0 : Int).natAbs) := by
    rw [Int.natAbs_zero, JSNum.roundNat_zero]
    exact Nat.not_le.mpr (by positivity)
  unfold JSNum.ofExact
  rw [if_neg h]
  simp [JSNum.roundNat_zero]

theorem JSNum.ofExact_isNeg (n : Int) : (JSNum.ofExact n).isNeg = true ↔ n < 0 := by
  have hr : n ≠ 0 → 0 < (JSNum.roundNat n.natAbs : Int) := fun hn =>
    Int.ofNat_pos.mpr (JSNum.roundNat_pos _ (Int.natAbs_pos.mpr hn))
  unfold JSNum.ofExact
  by_cases hneg : n < 0
  · have := hr (by omega)
    split_ifs
    · simp [JSNum.isNeg, hneg]
    · simp only [JSNum.isNeg, decide_eq_true_eq]; omega
  · by_cases h0 : n = 0
    · subst h0
      split_ifs <;> simp [JSNum.isNeg, JSNum.roundNat_zero]
    · have := hr h0
      split_ifs
      · simp [JSNum.isNeg, hneg]
      · simp only [JSNum.isNeg, decide_eq_true_eq]; omega

theorem JSNum.ofExact_isPos (n : Int) : (JSNum.ofExact n).isPos = true ↔ 0 < n := by
  have hr : n ≠ 0 → 0 < (JSNum.roundNat n.natAbs : Int) := fun hn =>
    Int.ofNat_pos.mpr (JSNum.roundNat_pos _ (Int.natAbs_pos.mpr hn))
  unfold JSNum.ofExact
  by_cases hneg : n < 0
  · have := hr (by omega)
    split_ifs <;> simp [JSNum.isPos, hneg] <;> omega
  · by_cases h0 : n = 0
    · subst h0
      have h : ¬ (2 ^ 2098 ≤ JSNum.roundNat (0 : Int).natAbs) := by
        rw [Int.natAbs_zero, JSNum.roundNat_zero]
        exact Nat.not_le.mpr (by positivity)
      rw [if_neg h]
      simp [JSNum.isPos, JSNum.roundNat_zero]
    · have := hr h0
      split_ifs <;> simp [JSNum.isPos, hneg] <;> omega

theorem JSNum.ofExact_truthy (n : Int) : (JSNum.ofExact n).truthy = true ↔ n ≠ 0 := by
  constructor
  · intro h hn
    subst hn
    rw [JSNum.ofExact_zero] at h
    simp [JSNum.truthy] at h
  · intro hn
    rcases lt_or_gt_of_ne hn with h | h
    · have := (JSNum.ofExact_isNeg n).mpr h
      revert this
      cases JSNum.ofExact n <;> simp [JSNum.isNeg, JSNum.truthy]
      intro h; omega
    · have := (JSNum.ofExact_isPos n).mpr h
      revert this
      cases JSNum.ofExact n <;> simp [JSNum.isPos, JSNum.truthy]
      intro h; omega

/-- An integer of magnitude below `2 ^ 53` is a double, and it is the result of a subtraction
whose exact difference it is. -/
theorem JSNum.ofExact_ofInt (k : Int) (hk : k.natAbs < 2 ^ 53) :
    JSNum.ofExact (k * JSNum.unitsPerOne) = JSNum.ofInt k := by
  have habs : (k * JSNum.unitsPerOne).natAbs = k.natAbs * 2 ^ 1074 := by
    rw [Int.natAbs_mul]
    unfold JSNum.unitsPerOne
    exact congrArg _ (Int.natAbs_pow 2 1074)
  have hround := JSNum.roundNat_exact k.natAbs 1074 hk
  have hsmall : ¬ (2 ^ 2098 ≤ k.natAbs * 2 ^ 1074) := by
    have h1 : k.natAbs * 2 ^ 1074 < 2 ^ 53 * 2 ^ 1074 :=
      Nat.mul_lt_mul_of_pos_right hk (by positivity)
    have h2 : (2 : Nat) ^ 53 * 2 ^ 1074 ≤ 2 ^ 2098 :=
      le_of_eq_of_le (pow_add 2 53 1074).symm
        (Nat.pow_le_pow_right (by decide) (by decide))
    exact Nat.not_le.mpr (lt_of_lt_of_le h1 h2)
  have hU := JSNum.unitsPerOne_pos
  have hcast : ((k.natAbs * 2 ^ 1074 : Nat) : Int) = (k.natAbs : Int) * JSNum.unitsPerOne := by
    unfold JSNum.unitsPerOne; push_cast; ring
  have hval : (if k * JSNum.unitsPerOne < 0 then -((k.natAbs * 2 ^ 1074 : Nat) : Int)
      else ((k.natAbs * 2 ^ 1074 : Nat) : Int)) = k * JSNum.unitsPerOne := by
    rw [hcast]
    by_cases hneg : k < 0
    · have h1 : k * JSNum.unitsPerOne < 0 := Int.mul_neg_of_neg_of_pos hneg hU
      rw [if_pos h1]
      have : (k.natAbs : Int) = -k := by omega
      rw [this]; ring
    · have h1 : ¬ k * JSNum.unitsPerOne < 0 :=
        not_lt.mpr (Int.mul_nonneg (by omega) (le_of_lt hU))
      rw [if_neg h1]
      have : (k.natAbs : Int) = k := by omega
      rw [this]
  unfold JSNum.ofExact JSNum.ofInt
  rw [habs, hround, if_neg hsmall, hval]

theorem JSNum.sub_ofInt (x y : Int) (h : (x - y).natAbs < 2 ^ 53) :
    (JSNum.ofInt x).sub (JSNum.ofInt y) = JSNum.ofInt (x - y) := by
  show JSNum.ofExact (x * JSNum.unitsPerOne - y * JSNum.unitsPerOne) = _
  rw [← sub_mul]
  exact JSNum.ofExact_ofInt _ h

theorem JSNum.ofInt_isNeg (k : Int) : (JSNum.ofInt k).isNeg = true ↔ k < 0 := by
  have hU := JSNum.unitsPerOne_pos
  simp only [JSNum.ofInt, JSNum.isNeg, decide_eq_true_eq]
  constructor
  · intro h
    by_contra hk
    have : 0 ≤ k * JSNum.unitsPerOne := Int.mul_nonneg (by omega) (le_of_lt hU)
    omega
  · intro h; exact Int.mul_neg_of_neg_of_pos h hU

theorem JSNum.ofInt_isPos (k : Int) : (JSNum.ofInt k).isPos = true ↔ 0 < k := by
  have hU := JSNum.unitsPerOne_pos
  simp only [JSNum.ofInt, JSNum.isPos, decide_eq_true_eq]
  constructor
  · intro h
    by_contra hk
    have : k * JSNum.unitsPerOne ≤ 0 := Int.mul_nonpos_of_nonpos_of_nonneg (by omega) (le_of_lt hU)
    omega
  · intro h; exact Int.mul_pos h hU

theorem JSNum.ofInt_truthy (k : Int) : (JSNum.ofInt k).truthy = true ↔ k ≠ 0 := by
  have hU := JSNum.unitsPerOne_pos
  simp only [JSNum.ofInt, JSNum.truthy, bne_iff_ne, ne_eq, mul_eq_zero, not_or]
  constructor
  · intro h; exact h.1
  · intro h; exact ⟨h, by omega⟩

theorem JSNum.ofInt_injective (x y : Int) (h : JSNum.ofInt x = JSNum.ofInt y) : x = y := by
  have hU := JSNum.unitsPerOne_pos
  simp only [JSNum.ofInt, JSNum.fin.injEq] at h
  exact Int.eq_of_mul_eq_mul_right (by omega) h

/-! ## The rounding of a subtraction, on examples -/

theorem log2_eq_of_bounds (a L : Nat) (h1 : 2 ^ L ≤ a) (h2 : a < 2 ^ (L + 1)) :
    a.log2 = L := by
  have hne : a ≠ 0 := by
    intro h0; rw [h0] at h1
    exact absurd h1 (Nat.not_le.mpr (by positivity))
  have hlt : a.log2 < L + 1 := (Nat.log2_lt hne).mpr h2
  have hge : ¬ a.log2 < L := fun h => absurd ((Nat.log2_lt hne).mp h) (Nat.not_lt.mpr h1)
  omega

/-- A magnitude half way between two neighbouring doubles is rounded to the one with the even
significand: `2 ^ 53 + 1` becomes `2 ^ 53`, at every scale. -/
theorem JSNum.roundNat_tie (j : Nat) :
    JSNum.roundNat ((2 ^ 53 + 1) * 2 ^ j) = 2 ^ 53 * 2 ^ j := by
  have hp : 0 < 2 ^ j := by positivity
  have hform : (2 ^ 53 + 1) * 2 ^ j = 2 ^ j + 2 ^ (j + 1) * 2 ^ 52 := by
    rw [pow_succ]; ring
  have h1 : 2 ^ (53 + j) ≤ (2 ^ 53 + 1) * 2 ^ j := by
    rw [pow_add]; exact Nat.mul_le_mul_right _ (by norm_num)
  have h2 : (2 ^ 53 + 1) * 2 ^ j < 2 ^ (53 + j + 1) := by
    rw [show 53 + j + 1 = 54 + j by omega, pow_add]
    exact Nat.mul_lt_mul_of_pos_right (by norm_num) hp
  have hlog := log2_eq_of_bounds _ _ h1 h2
  have hbig : ¬ (2 ^ 53 + 1) * 2 ^ j < 2 ^ 53 := by
    have : 2 ^ 53 + 1 ≤ (2 ^ 53 + 1) * 2 ^ j := Nat.le_mul_of_pos_right _ hp
    omega
  have hlt : 2 ^ j < 2 ^ (j + 1) := Nat.pow_lt_pow_right (by norm_num) (by omega)
  have hq : (2 ^ j + 2 ^ (j + 1) * 2 ^ 52) / 2 ^ (j + 1) = 2 ^ 52 := by
    rw [Nat.add_mul_div_left _ _ (by positivity), Nat.div_eq_of_lt hlt, Nat.zero_add]
  have hr : (2 ^ j + 2 ^ (j + 1) * 2 ^ 52) % 2 ^ (j + 1) = 2 ^ j := by
    rw [Nat.add_mul_mod_self_left, Nat.mod_eq_of_lt hlt]
  unfold JSNum.roundNat
  rw [if_neg hbig]
  simp only [hlog, show 53 + j - 52 = j + 1 by omega, Nat.add_sub_cancel]
  rw [hform, hq, hr, if_neg (Nat.lt_irrefl _), if_pos ⟨rfl, by norm_num⟩, pow_succ]
  ring

/-- The difference of `2 ^ 53` and `-1` is not a double; the subtraction returns `2 ^ 53`. -/
theorem JSNum.sub_rounds_tie_to_even :
    (JSNum.ofInt (2 ^ 53)).sub (JSNum.ofInt (-1)) = JSNum.ofInt (2 ^ 53) := by
  have hU := JSNum.unitsPerOne_pos
  have hn : (2 : Int) ^ 53 * JSNum.unitsPerOne - -1 * JSNum.unitsPerOne =
      (((2 ^ 53 + 1) * 2 ^ 1074 : Nat) : Int) := by
    unfold JSNum.unitsPerOne; push_cast; ring
  have hcast : (((2 : Nat) ^ 53 * 2 ^ 1074 : Nat) : Int) = 2 ^ 53 * JSNum.unitsPerOne := by
    unfold JSNum.unitsPerOne; push_cast; ring
  have hsmall : ¬ (2 ^ 2098 ≤ (2 : Nat) ^ 53 * 2 ^ 1074) := by
    rw [← pow_add]
    exact Nat.not_le.mpr (Nat.pow_lt_pow_right (by decide) (by decide))
  show JSNum.ofExact (2 ^ 53 * JSNum.unitsPerOne - -1 * JSNum.unitsPerOne) = _
  rw [hn]
  unfold JSNum.ofExact JSNum.ofInt
  rw [Int.natAbs_ofNat, JSNum.roundNat_tie, if_neg hsmall,
    if_neg (not_lt.mpr (Int.ofNat_nonneg _)), hcast]

/-- The difference of 15.5 and 15 is a double, 0.5, and the subtraction returns it. -/
theorem JSNum.sub_fraction :
    (JSNum.fin (31 * 2 ^ 1073)).sub (JSNum.ofInt 15) = JSNum.fin (2 ^ 1073) := by
  have hn : (31 : Int) * 2 ^ 1073 - 15 * JSNum.unitsPerOne = ((1 * 2 ^ 1073 : Nat) : Int) := by
    unfold JSNum.unitsPerOne; push_cast; ring
  have hsmall : ¬ (2 ^ 2098 ≤ 1 * 2 ^ 1073) := by
    rw [Nat.one_mul]
    exact Nat.not_le.mpr (Nat.pow_lt_pow_right (by decide) (by decide))
  show JSNum.ofExact (31 * 2 ^ 1073 - 15 * JSNum.unitsPerOne) = _
  rw [hn]
  unfold JSNum.ofExact
  have hc : ((1 * 2 ^ 1073 : Nat) : Int) = 2 ^ 1073 := by push_cast; ring
  rw [Int.natAbs_ofNat, JSNum.roundNat_exact 1 1073 (by decide), if_neg hsmall,
    if_neg (not_lt.mpr (Int.ofNat_nonneg _)), hc]

/-! ## Facts about the comparison of strings -/

theorem char_valid (c : Char) :
    c.toNat < 0xD800 ∨ (0xDFFF < c.toNat ∧ c.toNat < 0x110000) := c.valid

theorem char_toNat_inj (c d : Char) (h : c.toNat = d.toNat) : c = d := by
  rw [← Char.ofNat_toNat c, ← Char.ofNat_toNat d, h]

/-- The code units of a character determine it, and tell where it ends. -/
theorem charUnits_append_inj (c d : Char) (r s : List Nat)
    (h : charUnits c ++ r = charUnits d ++ s) : c = d ∧ r = s := by
  have hc := char_valid c
  have hd := char_valid d
  unfold charUnits at h
  by_cases h1 : c.toNat < 0x10000 <;> by_cases h2 : d.toNat < 0x10000
  · simp only [h1, h2, if_true, List.singleton_append, List.cons.injEq] at h
    exact ⟨char_toNat_inj c d h.1, h.2⟩
  · simp only [h1, h2, if_true, if_false, List.singleton_append, List.cons_append,
      List.nil_append, List.cons.injEq] at h
    omega
  · simp only [h1, h2, if_true, if_false, List.singleton_append, List.cons_append,
      List.nil_append, List.cons.injEq] at h
    omega
  · simp only [h1, h2, if_false, List.cons_append, List.nil_append, List.cons.injEq] at h
    refine ⟨char_toNat_inj c d ?_, h.2.2⟩
    omega

theorem flatMap_charUnits_inj : ∀ (l m : List Char),
    l.flatMap charUnits = m.flatMap charUnits → l = m
  | [], [] => fun _ => rfl
  | [], d :: m => fun h => by
    exfalso
    simp only [List.flatMap_nil, List.flatMap_cons] at h
    unfold charUnits at h
    split_ifs at h <;> simp at h
  | c :: l, [] => fun h => by
    exfalso
    simp only [List.flatMap_nil, List.flatMap_cons] at h
    unfold charUnits at h
    split_ifs at h <;> simp at h
  | c :: l, d :: m => fun h => by
    simp only [List.flatMap_cons] at h
    obtain ⟨h1, h2⟩ := charUnits_append_inj c d _ _ h
    rw [h1, flatMap_charUnits_inj l m h2]

/-- Strings with the same code units are the same string. -/
theorem utf16_injective (s t : String) (h : utf16 s = utf16 t) : s = t := by
  unfold utf16 at h
  have := flatMap_charUnits_inj _ _ h
  exact String.ext this

theorem codeUnitsLt_irrefl : ∀ l : List Nat, codeUnitsLt l l = false
  | [] => rfl
  | x :: xs => by simp [codeUnitsLt, codeUnitsLt_irrefl xs]

theorem codeUnitsLt_total : ∀ l m : List Nat, l ≠ m →
    codeUnitsLt l m = true ∨ codeUnitsLt m l = true
  | [], [] => fun h => absurd rfl h
  | [], _ :: _ => fun _ => Or.inl rfl
  | _ :: _, [] => fun _ => Or.inr rfl
  | x :: xs, y :: ys => fun h => by
    unfold codeUnitsLt
    rcases Nat.lt_trichotomy x y with hxy | hxy | hxy
    · left; simp [hxy]
    · subst hxy
      have hne : xs ≠ ys := fun e => h (by rw [e])
      simpa using codeUnitsLt_total xs ys hne
    · right; simp [hxy]

theorem codeUnitsLt_asymm : ∀ l m : List Nat, codeUnitsLt l m = true →
    codeUnitsLt m l = false
  | [], [] => fun h => by simp [codeUnitsLt] at h
  | [], _ :: _ => fun _ => rfl
  | _ :: _, [] => fun h => by simp [codeUnitsLt] at h
  | x :: xs, y :: ys => fun h => by
    unfold codeUnitsLt at h ⊢
    rcases Nat.lt_trichotomy x y with hxy | hxy | hxy
    · have : ¬ y < x := by omega
      simp [hxy, this]
    · subst hxy
      simp only [lt_self_iff_false, if_false] at h ⊢
      exact codeUnitsLt_asymm xs ys h
    · have : ¬ x < y := by omega
      simp [hxy, this] at h

/-- The order `≤` of code-unit sequences is transitive. -/
theorem codeUnitsLt_not_trans : ∀ l m n : List Nat, codeUnitsLt m l = false →
    codeUnitsLt n m = false → codeUnitsLt n l = false
  | [], _, [] => fun _ _ => rfl
  | [], _, _ :: _ => fun _ _ => rfl
  | _ :: _, [], _ => fun h _ => by simp [codeUnitsLt] at h
  | _ :: _, _ :: _, [] => fun _ h => by simp [codeUnitsLt] at h
  | x :: xs, y :: ys, z :: zs => fun h1 h2 => by
    unfold codeUnitsLt at h1 h2 ⊢
    by_cases hyx : y < x
    · simp [hyx] at h1
    · by_cases hzy : z < y
      · simp [hzy] at h2
      · have hzx : ¬ z < x := by omega
        by_cases hxz : x < z
        · simp [hzx, hxz]
        · have e1 : x = y := by omega
          have e2 : y = z := by omega
          subst e1; subst e2
          simp only [lt_self_iff_false, if_false] at h1 h2 ⊢
          exact codeUnitsLt_not_trans xs ys zs h1 h2

theorem jsStringLt_total (s t : String) (h : s ≠ t) :
    jsStringLt s t = true ∨ jsStringLt t s = true :=
  codeUnitsLt_total _ _ (fun e => h (utf16_injective s t e))

theorem jsStringLt_asymm (s t : String) (h : jsStringLt s t = true) :
    jsStringLt t s = false :=
  codeUnitsLt_asymm _ _ h

theorem jsStringLt_not_trans (s t u : String) (h1 : jsStringLt t s = false)
    (h2 : jsStringLt u t = false) : jsStringLt u s = false :=
  codeUnitsLt_not_trans _ _ _ h1 h2

/-! ## The sort comparator -/

theorem initiativeOrNegInf_ne_nan (H : Host) (i : Initiative) :
    initiativeOrNegInf H i ≠ .nan := by
  unfold initiativeOrNegInf
  cases i with
  | null => simp [isNumeric]
  | num x =>
    by_cases hx : x = .nan
    · simp [isNumeric, hx]
    · simp [isNumeric, toNumber, hx]
  | str s =>
    by_cases h : isNumeric H (.str s) = true
    · rw [if_pos h]
      simp [isNumeric] at h
      simpa [toNumber] using h.2
    · rw [if_neg h]; simp

theorem JSNum.sub_truthy_iff {x y : JSNum} (hx : x ≠ .nan) (hy : y ≠ .nan) :
    (x.sub y).truthy = false ↔ x = y := by
  cases x <;> cases y <;> try (simp_all [JSNum.sub, JSNum.truthy]; done)
  rename_i a b
  show (JSNum.ofExact (a - b)).truthy = false ↔ JSNum.fin a = JSNum.fin b
  rw [← Bool.not_eq_true, JSNum.ofExact_truthy, JSNum.fin.injEq]
  constructor <;> intro h <;> omega

theorem JSNum.sub_isNeg_swap {x y : JSNum} : (x.sub y).isNeg = (y.sub x).isPos := by
  cases x <;> cases y <;> try (simp [JSNum.sub, JSNum.isNeg, JSNum.isPos]; done)
  rename_i a b
  show (JSNum.ofExact (a - b)).isNeg = (JSNum.ofExact (b - a)).isPos
  rw [Bool.eq_iff_iff, JSNum.ofExact_isNeg, JSNum.ofExact_isPos]
  constructor <;> intro h <;> omega

theorem JSNum.sub_isNeg_trans {x y z : JSNum} (hy : y ≠ .nan)
    (h1 : (x.sub y).isNeg = true) (h2 : (y.sub z).isNeg = true) : (x.sub z).isNeg = true := by
  cases x <;> cases y <;> cases z <;> try (simp_all [JSNum.sub, JSNum.isNeg]; done)
  rename_i a b c
  change (JSNum.ofExact (a - b)).isNeg = true at h1
  change (JSNum.ofExact (b - c)).isNeg = true at h2
  show (JSNum.ofExact (a - c)).isNeg = true
  rw [JSNum.ofExact_isNeg] at h1 h2 ⊢
  omega

theorem JSNum.truthy_of_isNeg {x : JSNum} (h : x.isNeg = true) : x.truthy = true := by
  cases x <;> simp_all [JSNum.isNeg, JSNum.truthy]; omega

theorem JSNum.truthy_of_isPos {x : JSNum} (h : x.isPos = true) : x.truthy = true := by
  cases x <;> simp_all [JSNum.isPos, JSNum.truthy]; omega

theorem JSNum.sign_eq_neg_of_sub (x y : JSNum) :
    (x.sub y).sign = - (y.sub x).sign := by
  have h1 : (x.sub y).isNeg = (y.sub x).isPos := JSNum.sub_isNeg_swap
  have h2 : (y.sub x).isNeg = (x.sub y).isPos := JSNum.sub_isNeg_swap
  have h3 : ¬ ((x.sub y).isNeg = true ∧ (x.sub y).isPos = true) := by
    cases x.sub y <;> simp [JSNum.isNeg, JSNum.isPos]; omega
  unfold JSNum.sign
  rw [h2, ← h1]
  cases hn : (x.sub y).isNeg <;> cases hp : (x.sub y).isPos <;> simp_all

theorem sortCombatants_of_ne (H : Host) (a b : Combatant)
    (h : initiativeOrNegInf H a.initiative ≠ initiativeOrNegInf H b.initiative) :
    _sortCombatants H a b =
      .ok ((initiativeOrNegInf H a.initiative).sub (initiativeOrNegInf H b.initiative)) := by
  have ht : ((initiativeOrNegInf H a.initiative).sub
      (initiativeOrNegInf H b.initiative)).truthy = true := by
    by_contra hc
    exact h ((JSNum.sub_truthy_iff (initiativeOrNegInf_ne_nan H _)
      (initiativeOrNegInf_ne_nan H _)).mp (by simpa using hc))
  simp only [_sortCombatants, ht, if_true]

theorem sortCombatants_of_eq (H : Host) (a b : Combatant) (ta tb : Token)
    (h : initiativeOrNegInf H a.initiative = initiativeOrNegInf H b.initiative)
    (ha : a.token = some ta) (hb : b.token = some tb) :
    _sortCombatants H a b =
      .ok (if H.localeCompare ta.name tb.name ≠ 0
        then JSNum.ofInt (H.localeCompare ta.name tb.name)
        else if jsStringLt b.id a.id then JSNum.ofInt 1 else JSNum.ofInt (-1)) := by
  have ht : ((initiativeOrNegInf H a.initiative).sub
      (initiativeOrNegInf H b.initiative)).truthy = false :=
    (JSNum.sub_truthy_iff (initiativeOrNegInf_ne_nan H _) (initiativeOrNegInf_ne_nan H _)).mpr h
  simp only [_sortCombatants, ht, Bool.false_eq_true, if_false, ha, hb, JSNum.or]
  by_cases hn : H.localeCompare ta.name tb.name = 0
  · have h0 : (JSNum.ofInt 0).truthy = false := by
      rw [← Bool.not_eq_true, JSNum.ofInt_truthy]; simp
    simp only [hn, h0, Bool.false_eq_true, if_false, ne_eq, not_true_eq_false]
  · have h1 : (JSNum.ofInt (H.localeCompare ta.name tb.name)).truthy = true :=
      (JSNum.ofInt_truthy _).mpr hn
    simp only [h1, if_true, ne_eq, hn, not_false_eq_true]

theorem sortCombatants_of_eq_tokenless (H : Host) (a b : Combatant)
    (h : initiativeOrNegInf H a.initiative = initiativeOrNegInf H b.initiative)
    (ht : a.token = none ∨ b.token = none) :
    ∃ e, _sortCombatants H a b = .error e := by
  have htr : ((initiativeOrNegInf H a.initiative).sub
      (initiativeOrNegInf H b.initiative)).truthy = false :=
    (JSNum.sub_truthy_iff (initiativeOrNegInf_ne_nan H _) (initiativeOrNegInf_ne_nan H _)).mpr h
  simp only [_sortCombatants, htr, Bool.false_eq_true, if_false]
  cases ha : a.token with
  | none => exact ⟨_, rfl⟩
  | some ta =>
    cases hb : b.token with
    | none => exact ⟨_, rfl⟩
    | some tb =>
      rcases ht with ht | ht
      · rw [ha] at ht; cases ht
      · rw [hb] at ht; cases ht

theorem initiativeOrNegInf_of_not_numeric (H : Host) (i : Initiative)
    (h : isNumeric H i = false) : initiativeOrNegInf H i = .negInf := by
  simp [initiativeOrNegInf, h]

theorem initiativeOrNegInf_of_numeric (H : Host) (i : Initiative)
    (h : isNumeric H i = true) : initiativeOrNegInf H i = toNumber H i := by
  simp [initiativeOrNegInf, h]

theorem initiativeOrNegInf_fin (H : Host) (n : Int) :
    initiativeOrNegInf H (.num (.fin n)) = .fin n := by
  simp [initiativeOrNegInf, isNumeric, toNumber]

theorem occursBefore_of_pairwise {R : Combatant → Combatant → Prop} {l : List Combatant}
    {x y : Combatant} (hl : l.Pairwise R) (hx : x ∈ l) (hy : y ∈ l) (hR : ¬ R y x)
    (hne : y ≠ x) : OccursBefore x y l := by
  obtain ⟨s, t, rfl⟩ := List.append_of_mem hx
  rw [List.pairwise_append] at hl
  rcases List.mem_append.mp hy with hs | ht
  · exact absurd (hl.2.2 y hs x (List.mem_cons_self _ _)) hR
  · rcases List.mem_cons.mp ht with heq | ht
    · exact absurd heq hne
    · obtain ⟨t1, t2, rfl⟩ := List.append_of_mem ht
      exact ⟨s, t1, t2, rfl⟩

theorem sortCombatants_nonNumeric_fin (H : Host) (a b : Combatant) (n : Int)
    (ha : isNumeric H a.initiative = false) (hb : b.initiative = .num (.fin n)) :
    _sortCombatants H a b = .ok .negInf ∧ _sortCombatants H b a = .ok .posInf := by
  have hia := initiativeOrNegInf_of_not_numeric H _ ha
  have hib : initiativeOrNegInf H b.initiative = .fin n := by
    rw [hb]; exact initiativeOrNegInf_fin H n
  constructor
  · rw [sortCombatants_of_ne H a b (by rw [hia, hib]; simp), hia, hib]; rfl
  · rw [sortCombatants_of_ne H b a (by rw [hia, hib]; simp), hia, hib]; rfl

/-- C1: `_sortCombatants` treats a non-numeric initiative (null, or a non-numeric string such
as "x") as negative infinity and compares by subtraction: when both initiatives are numeric
and differ the comparator returns their difference, and when `a` is non-numeric and `b` is a
finite number it returns a negative number (a positive one with the roles swapped). Hence in
every array that holds combatants with initiatives null, 5, "x" and -1 and is sorted by this
comparator, the null and "x" combatants come before the -1 combatant, and that one before
the 5 combatant. -/
theorem sortCombatants_nonNumeric_negInf (H : Host) (hx : H.strToNum "x" = .nan) :
    (initiativeOrNegInf H .null = .negInf ∧ initiativeOrNegInf H (.str "x") = .negInf ∧
      ∀ i, isNumeric H i = false → initiativeOrNegInf H i = .negInf) ∧
    (∀ a b : Combatant, isNumeric H a.initiative = true → isNumeric H b.initiative = true →
      toNumber H a.initiative ≠ toNumber H b.initiative →
      _sortCombatants H a b =
        .ok ((toNumber H a.initiative).sub (toNumber H b.initiative))) ∧
    (∀ (a b : Combatant) (n : Int), isNumeric H a.initiative = false →
      b.initiative = .num (.fin n) →
      (∃ r, _sortCombatants H a b = .ok r ∧ r.isNeg = true) ∧
      (∃ r, _sortCombatants H b a = .ok r ∧ r.isPos = true)) ∧
    (∀ (cNull cFive cX cMinus : Combatant) (l : List Combatant),
      cNull.initiative = .null → cFive.initiative = .num (.ofInt 5) →
      cX.initiative = .str "x" → cMinus.initiative = .num (.ofInt (-1)) →
      cNull ∈ l → cFive ∈ l → cX ∈ l → cMinus ∈ l → SortedByComparator H l →
      OccursBefore cNull cMinus l ∧ OccursBefore cX cMinus l ∧ OccursBefore cMinus cFive l) := by
  have hnull : isNumeric H .null = false := rfl
  have hstr : isNumeric H (.str "x") = false := by simp [isNumeric, hx]
  refine ⟨⟨initiativeOrNegInf_of_not_numeric H _ hnull,
    initiativeOrNegInf_of_not_numeric H _ hstr,
    fun i hi => initiativeOrNegInf_of_not_numeric H i hi⟩, ?_, ?_, ?_⟩
  · intro a b ha hb hne
    rw [sortCombatants_of_ne H a b (by
      rw [initiativeOrNegInf_of_numeric H _ ha, initiativeOrNegInf_of_numeric H _ hb]
      exact hne), initiativeOrNegInf_of_numeric H _ ha, initiativeOrNegInf_of_numeric H _ hb]
  · intro a b n ha hb
    obtain ⟨h1, h2⟩ := sortCombatants_nonNumeric_fin H a b n ha hb
    exact ⟨⟨_, h1, rfl⟩, ⟨_, h2, rfl⟩⟩
  · intro cNull cFive cX cMinus l h0 h5 hX hM m0 m5 mX mM hl
    have e0 : isNumeric H cNull.initiative = false := by rw [h0]; exact hnull
    have eX : isNumeric H cX.initiative = false := by rw [hX]; exact hstr
    have hM2 : cMinus.initiative = .num (.fin (-1 * JSNum.unitsPerOne)) := hM
    have h52 : cFive.initiative = .num (.fin (5 * JSNum.unitsPerOne)) := h5
    refine ⟨occursBefore_of_pairwise hl m0 mM ?_ ?_, occursBefore_of_pairwise hl mX mM ?_ ?_,
      occursBefore_of_pairwise hl mM m5 ?_ ?_⟩
    · rintro ⟨r, hr, hpos⟩
      rw [(sortCombatants_nonNumeric_fin H cNull cMinus _ e0 hM2).2] at hr
      cases hr; simp [JSNum.isPos] at hpos
    · intro h; rw [h, h0] at hM; cases hM
    · rintro ⟨r, hr, hpos⟩
      rw [(sortCombatants_nonNumeric_fin H cX cMinus _ eX hM2).2] at hr
      cases hr; simp [JSNum.isPos] at hpos
    · intro h; rw [h, hX] at hM; cases hM
    · have hne : (JSNum.fin (5 * JSNum.unitsPerOne)) ≠ .fin (-1 * JSNum.unitsPerOne) := by
        intro h
        have := JSNum.ofInt_injective 5 (-1) h
        omega
      have e : _sortCombatants H cFive cMinus = .ok (JSNum.ofInt 6) := by
        rw [sortCombatants_of_ne H cFive cMinus (by
          rw [h52, hM2, initiativeOrNegInf_fin, initiativeOrNegInf_fin]; exact hne),
          h52, hM2, initiativeOrNegInf_fin, initiativeOrNegInf_fin]
        exact congrArg Except.ok (JSNum.sub_ofInt 5 (-1) (by decide))
      rintro ⟨r, hr, hpos⟩
      rw [e] at hr
      cases hr
      have := (JSNum.ofInt_isPos 6).mpr (by decide)
      rw [this] at hpos
      cases hpos
    · intro h
      rw [h, hM2] at h52
      have h3 : JSNum.ofInt (-1) = JSNum.ofInt 5 := by
        injection h52
      have := JSNum.ofInt_injective _ _ h3
      omega

theorem sampleHost_x : sampleHost.strToNum "x" = .nan := by decide

theorem sampleSorted_sorted : SortedByComparator sampleHost sampleSorted := by
  have hnull : isNumeric sampleHost (sampleCombatant "a" .null "Orc").initiative = false := rfl
  have hstr : isNumeric sampleHost (sampleCombatant "c" (.str "x") "Wolf").initiative = false := by
    simp [sampleCombatant, isNumeric, sampleHost_x]
  have hneg : ∀ (a b : Combatant) (n : Int), isNumeric sampleHost a.initiative = false →
      b.initiative = .num (.fin n) →
      ∃ r, _sortCombatants sampleHost a b = .ok r ∧ r.isPos = false := fun a b n ha hb =>
    ⟨_, (sortCombatants_nonNumeric_fin sampleHost a b n ha hb).1, rfl⟩
  unfold SortedByComparator sampleSorted
  refine List.Pairwise.cons ?_ (List.Pairwise.cons ?_ (List.Pairwise.cons ?_
    (List.Pairwise.cons ?_ List.Pairwise.nil)))
  · intro b hb
    simp only [List.mem_cons, List.mem_singleton, List.not_mem_nil, or_false] at hb
    rcases hb with rfl | rfl | rfl
    · refine ⟨_, sortCombatants_of_eq sampleHost _ _ ⟨"Orc"⟩ ⟨"Wolf"⟩ ?_ rfl rfl, ?_⟩
      · rw [initiativeOrNegInf_of_not_numeric _ _ hnull,
          initiativeOrNegInf_of_not_numeric _ _ hstr]
      · have h1 : sampleHost.localeCompare "Orc" "Wolf" = -1 := by decide
        simp only [h1]
        rw [if_pos (by decide), ← Bool.not_eq_true, JSNum.ofInt_isPos]
        decide
    · exact hneg _ _ _ hnull rfl
    · exact hneg _ _ _ hnull rfl
  · intro b hb
    simp only [List.mem_cons, List.mem_singleton, List.not_mem_nil, or_false] at hb
    rcases hb with rfl | rfl
    · exact hneg _ _ _ hstr rfl
    · exact hneg _ _ _ hstr rfl
  · intro b hb
    simp only [List.mem_singleton] at hb
    subst hb
    have hne : initiativeOrNegInf sampleHost
        (sampleCombatant "d" (.num (.ofInt (-1))) "Bat").initiative ≠
        initiativeOrNegInf sampleHost (sampleCombatant "b" (.num (.ofInt 5)) "Imp").initiative := by
      show initiativeOrNegInf sampleHost (.num (.fin _)) ≠
        initiativeOrNegInf sampleHost (.num (.fin _))
      rw [initiativeOrNegInf_fin, initiativeOrNegInf_fin]
      intro h
      have := JSNum.ofInt_injective (-1) 5 h
      omega
    refine ⟨_, sortCombatants_of_ne sampleHost _ _ hne, ?_⟩
    show ((initiativeOrNegInf sampleHost (.num (.fin _))).sub
      (initiativeOrNegInf sampleHost (.num (.fin _)))).isPos = false
    rw [initiativeOrNegInf_fin, initiativeOrNegInf_fin]
    have := JSNum.sub_ofInt (-1) 5 (by decide)
    unfold JSNum.ofInt at this
    rw [this, ← Bool.not_eq_true]
    have h2 := JSNum.ofInt_isPos (-1 - 5)
    unfold JSNum.ofInt at h2
    rw [h2]
    decide
  · intro b hb
    cases hb

/-- Witness for C1: with the sample host, where "x" is not a number, the sorted sample array
has the null and "x" combatants before the -1 combatant and that one before the 5 combatant. -/
theorem sortCombatants_nonNumeric_negInf_witness :
    sampleHost.strToNum "x" = .nan ∧ SortedByComparator sampleHost sampleSorted ∧
    OccursBefore (sampleCombatant "a" .null "Orc")
      (sampleCombatant "d" (.num (.ofInt (-1))) "Bat") sampleSorted ∧
    OccursBefore (sampleCombatant "c" (.str "x") "Wolf")
      (sampleCombatant "d" (.num (.ofInt (-1))) "Bat") sampleSorted ∧
    OccursBefore (sampleCombatant "d" (.num (.ofInt (-1))) "Bat")
      (sampleCombatant "b" (.num (.ofInt 5)) "Imp") sampleSorted :=
  ⟨sampleHost_x, sampleSorted_sorted,
    (sortCombatants_nonNumeric_negInf sampleHost sampleHost_x).2.2.2
      (sampleCombatant "a" .null "Orc") (sampleCombatant "b" (.num (.ofInt 5)) "Imp")
      (sampleCombatant "c" (.str "x") "Wolf") (sampleCombatant "d" (.num (.ofInt (-1))) "Bat")
      sampleSorted rfl rfl rfl rfl (List.mem_cons_self _ _)
      (List.mem_cons_of_mem _ (List.mem_cons_of_mem _ (List.mem_cons_of_mem _
        (List.mem_cons_self _ _))))
      (List.mem_cons_of_mem _ (List.mem_cons_self _ _))
      (List.mem_cons_of_mem _ (List.mem_cons_of_mem _ (List.mem_cons_self _ _)))
      sampleSorted_sorted⟩

/-- The comparator on initiatives `2 ^ 53` and `-1`: the exact difference `2 ^ 53 + 1` is not
a double, and the comparator returns `2 ^ 53`. -/
theorem sortCombatants_rounds_difference (H : Host) (a b : Combatant)
    (ha : a.initiative = .num (.ofInt (2 ^ 53))) (hb : b.initiative = .num (.ofInt (-1))) :
    _sortCombatants H a b = .ok (.ofInt (2 ^ 53)) := by
  have ha2 : a.initiative = .num (.fin (2 ^ 53 * JSNum.unitsPerOne)) := ha
  have hb2 : b.initiative = .num (.fin (-1 * JSNum.unitsPerOne)) := hb
  have hne : (JSNum.fin (2 ^ 53 * JSNum.unitsPerOne)) ≠ .fin (-1 * JSNum.unitsPerOne) := by
    intro h
    have := JSNum.ofInt_injective (2 ^ 53) (-1) h
    omega
  rw [sortCombatants_of_ne H a b (by
    rw [ha2, hb2, initiativeOrNegInf_fin, initiativeOrNegInf_fin]; exact hne),
    ha2, hb2, initiativeOrNegInf_fin, initiativeOrNegInf_fin]
  exact congrArg Except.ok JSNum.sub_rounds_tie_to_even

/-- The comparator on initiatives 15.5 and 15 returns 0.5. -/
theorem sortCombatants_fraction (H : Host) (a b : Combatant)
    (ha : a.initiative = .num (.fin (31 * 2 ^ 1073))) (hb : b.initiative = .num (.ofInt 15)) :
    _sortCombatants H a b = .ok (.fin (2 ^ 1073)) := by
  have hb2 : b.initiative = .num (.fin (15 * JSNum.unitsPerOne)) := hb
  have hs := JSNum.sub_fraction
  have hne : (JSNum.fin (31 * 2 ^ 1073)) ≠ .fin (15 * JSNum.unitsPerOne) := by
    intro h
    have ht : ((JSNum.fin (31 * 2 ^ 1073)).sub (JSNum.ofInt 15)).truthy = false :=
      (JSNum.sub_truthy_iff (by simp) (by simp [JSNum.ofInt])).mpr h
    rw [hs] at ht
    have hp : (0 : Int) < 2 ^ 1073 := by positivity
    simp only [JSNum.truthy, bne_eq_false_iff_eq] at ht
    omega
  rw [sortCombatants_of_ne H a b (by
    rw [ha, hb2, initiativeOrNegInf_fin, initiativeOrNegInf_fin]; exact hne),
    ha, hb2, initiativeOrNegInf_fin, initiativeOrNegInf_fin]
  exact congrArg Except.ok hs

theorem localeCompare_zero_symm (H : Host)
    (hanti : ∀ s t, H.localeCompare t s < 0 ↔ 0 < H.localeCompare s t) (s t : String)
    (h : H.localeCompare s t = 0) : H.localeCompare t s = 0 := by
  have h1 := hanti s t
  have h2 := hanti t s
  omega

theorem JSNum.sign_ofInt (k : Int) :
    (JSNum.ofInt k).sign = if k < 0 then -1 else if 0 < k then 1 else 0 := by
  unfold JSNum.sign
  by_cases h1 : k < 0
  · rw [if_pos ((JSNum.ofInt_isNeg k).mpr h1), if_pos h1]
  · have hn : ¬ (JSNum.ofInt k).isNeg = true := fun h => h1 ((JSNum.ofInt_isNeg k).mp h)
    rw [if_neg hn, if_neg h1]
    by_cases h2 : 0 < k
    · rw [if_pos ((JSNum.ofInt_isPos k).mpr h2), if_pos h2]
    · have hp : ¬ (JSNum.ofInt k).isPos = true := fun h => h2 ((JSNum.ofInt_isPos k).mp h)
      rw [if_neg hp, if_neg h2]

theorem JSNum.ne_zero_of_truthy {x : JSNum} (h : x.truthy = true) :
    x ≠ .fin 0 ∧ x ≠ .nan := by
  cases x <;> simp_all [JSNum.truthy]

/-- When the comparator returns a number below zero. -/
theorem sortCombatants_isNeg_iff (H : Host) (a b : Combatant) :
    (∃ r, _sortCombatants H a b = .ok r ∧ r.isNeg = true) ↔
      ((initiativeOrNegInf H a.initiative).sub (initiativeOrNegInf H b.initiative)).isNeg = true ∨
      (initiativeOrNegInf H a.initiative = initiativeOrNegInf H b.initiative ∧
        ∃ ta tb, a.token = some ta ∧ b.token = some tb ∧
          (H.localeCompare ta.name tb.name < 0 ∨
            (H.localeCompare ta.name tb.name = 0 ∧ jsStringLt b.id a.id = false))) := by
  by_cases he : initiativeOrNegInf H a.initiative = initiativeOrNegInf H b.initiative
  · have hd : ¬ ((initiativeOrNegInf H a.initiative).sub
        (initiativeOrNegInf H b.initiative)).isNeg = true := by
      intro hc
      have := (JSNum.sub_truthy_iff (initiativeOrNegInf_ne_nan H _)
        (initiativeOrNegInf_ne_nan H _)).mpr he
      rw [JSNum.truthy_of_isNeg hc] at this
      cases this
    constructor
    · rintro ⟨r, hr, hneg⟩
      right
      refine ⟨he, ?_⟩
      cases hta : a.token with
      | none =>
        obtain ⟨e, herr⟩ := sortCombatants_of_eq_tokenless H a b he (Or.inl hta)
        rw [herr] at hr; cases hr
      | some ta =>
        cases htb : b.token with
        | none =>
          obtain ⟨e, herr⟩ := sortCombatants_of_eq_tokenless H a b he (Or.inr htb)
          rw [herr] at hr; cases hr
        | some tb =>
          refine ⟨ta, tb, rfl, rfl, ?_⟩
          rw [sortCombatants_of_eq H a b ta tb he hta htb] at hr
          cases hr
          by_cases hn : H.localeCompare ta.name tb.name = 0
          · right
            refine ⟨hn, ?_⟩
            by_contra hid
            rw [if_neg (by simpa using hn), if_pos (by simpa using hid)] at hneg
            rw [JSNum.ofInt_isNeg] at hneg
            omega
          · left
            rw [if_pos hn, JSNum.ofInt_isNeg] at hneg
            exact hneg
    · rintro (h | ⟨_, ta, tb, hta, htb, h⟩)
      · exact absurd h hd
      · refine ⟨_, sortCombatants_of_eq H a b ta tb he hta htb, ?_⟩
        rcases h with h | ⟨h, hid⟩
        · rw [if_pos (by omega), JSNum.ofInt_isNeg]; exact h
        · rw [if_neg (by simpa using h), if_neg (by simp [hid]), JSNum.ofInt_isNeg]
          decide
  · rw [sortCombatants_of_ne H a b he]
    constructor
    · rintro ⟨r, hr, hneg⟩
      cases hr
      exact Or.inl hneg
    · rintro (h | ⟨h, _⟩)
      · exact ⟨_, rfl, h⟩
      · exact absurd h he

/-- C2, as amended: provided the token-name comparison is that of a total preorder,
`_sortCombatants` is a strict total order on combatants with pairwise distinct ids wherever
it returns. For `a`, `b` with different ids whose initiatives differ or that both have a
token, both comparisons return a number, never 0, and the sign of `cmp(a,b)` is the opposite
of the sign of `cmp(b,a)`; when `cmp(a,b)` and `cmp(b,c)` return numbers below zero, so does
`cmp(a,c)`; when the initiatives are equal (or both non-numeric) and both have a token the
result is the name comparison if that is non-zero and otherwise 1 if `a.id > b.id` and -1 if
not; when the initiatives are equal and one of the two has no token, the comparator throws. -/
theorem sortCombatants_strict_total_order (H : Host)
    (hanti : ∀ s t, H.localeCompare t s < 0 ↔ 0 < H.localeCompare s t)
    (htrans : ∀ s t u, H.localeCompare s t ≤ 0 → H.localeCompare t u ≤ 0 →
      H.localeCompare s u ≤ 0) :
    (∀ a b : Combatant, a.id ≠ b.id →
      (initiativeOrNegInf H a.initiative ≠ initiativeOrNegInf H b.initiative ∨
        (a.token ≠ none ∧ b.token ≠ none)) →
      ∃ r s, _sortCombatants H a b = .ok r ∧ _sortCombatants H b a = .ok s ∧
        r ≠ .fin 0 ∧ r ≠ .nan ∧ r.sign = - s.sign) ∧
    (∀ (a b c : Combatant) (r s : JSNum), _sortCombatants H a b = .ok r → r.isNeg = true →
      _sortCombatants H b c = .ok s → s.isNeg = true →
      ∃ t, _sortCombatants H a c = .ok t ∧ t.isNeg = true) ∧
    (∀ (a b : Combatant) (ta tb : Token),
      initiativeOrNegInf H a.initiative = initiativeOrNegInf H b.initiative →
      a.token = some ta → b.token = some tb →
      _sortCombatants H a b =
        .ok (if H.localeCompare ta.name tb.name ≠ 0
          then JSNum.ofInt (H.localeCompare ta.name tb.name)
          else if jsStringLt b.id a.id then JSNum.ofInt 1 else JSNum.ofInt (-1))) ∧
    (∀ a b : Combatant,
      initiativeOrNegInf H a.initiative = initiativeOrNegInf H b.initiative →
      (a.token = none ∨ b.token = none) → ∃ e, _sortCombatants H a b = .error e) := by
  refine ⟨?_, ?_, fun a b ta tb he ha hb => sortCombatants_of_eq H a b ta tb he ha hb,
    fun a b he ht => sortCombatants_of_eq_tokenless H a b he ht⟩
  · intro a b hid hret
    by_cases he : initiativeOrNegInf H a.initiative = initiativeOrNegInf H b.initiative
    · rcases hret with hret | ⟨hta, htb⟩
      · exact absurd he hret
      · obtain ⟨ta, hta⟩ := Option.ne_none_iff_exists'.mp hta
        obtain ⟨tb, htb⟩ := Option.ne_none_iff_exists'.mp htb
        refine ⟨_, _, sortCombatants_of_eq H a b ta tb he hta htb,
          sortCombatants_of_eq H b a tb ta he.symm htb hta, ?_⟩
        have h1 := hanti ta.name tb.name
        have h2 := hanti tb.name ta.name
        by_cases hn : H.localeCompare ta.name tb.name = 0
        · have hn2 := localeCompare_zero_symm H hanti _ _ hn
          simp only [hn, hn2, ne_eq, not_true_eq_false, if_false]
          rcases jsStringLt_total a.id b.id hid with hlt | hgt
          · have hnot := jsStringLt_asymm _ _ hlt
            simp only [hlt, hnot, if_true, Bool.false_eq_true, if_false,
              JSNum.sign_ofInt]
            exact ⟨(JSNum.ne_zero_of_truthy ((JSNum.ofInt_truthy _).mpr (by decide))).1,
              (JSNum.ne_zero_of_truthy ((JSNum.ofInt_truthy _).mpr (by decide))).2, by decide⟩
          · have hnot := jsStringLt_asymm _ _ hgt
            simp only [hgt, hnot, if_true, Bool.false_eq_true, if_false,
              JSNum.sign_ofInt]
            exact ⟨(JSNum.ne_zero_of_truthy ((JSNum.ofInt_truthy _).mpr (by decide))).1,
              (JSNum.ne_zero_of_truthy ((JSNum.ofInt_truthy _).mpr (by decide))).2, by decide⟩
        · have hn2 : H.localeCompare tb.name ta.name ≠ 0 := fun h =>
            hn (localeCompare_zero_symm H hanti _ _ h)
          rw [if_pos hn, if_pos hn2, JSNum.sign_ofInt, JSNum.sign_ofInt]
          refine ⟨(JSNum.ne_zero_of_truthy ((JSNum.ofInt_truthy _).mpr hn)).1,
            (JSNum.ne_zero_of_truthy ((JSNum.ofInt_truthy _).mpr hn)).2, ?_⟩
          split_ifs <;> omega
    · have he2 : initiativeOrNegInf H b.initiative ≠ initiativeOrNegInf H a.initiative :=
        fun h => he h.symm
      refine ⟨_, _, sortCombatants_of_ne H a b he, sortCombatants_of_ne H b a he2, ?_⟩
      have ht : ((initiativeOrNegInf H a.initiative).sub
          (initiativeOrNegInf H b.initiative)).truthy = true := by
        by_contra hc
        exact he ((JSNum.sub_truthy_iff (initiativeOrNegInf_ne_nan H _)
          (initiativeOrNegInf_ne_nan H _)).mp (by simpa using hc))
      exact ⟨(JSNum.ne_zero_of_truthy ht).1, (JSNum.ne_zero_of_truthy ht).2,
        JSNum.sign_eq_neg_of_sub _ _⟩
  · intro a b c r s hab hr hbc hs
    have hab : ∃ r, _sortCombatants H a b = .ok r ∧ r.isNeg = true := ⟨r, hab, hr⟩
    have hbc : ∃ r, _sortCombatants H b c = .ok r ∧ r.isNeg = true := ⟨s, hbc, hs⟩
    rw [sortCombatants_isNeg_iff] at hab hbc ⊢
    have hnb := initiativeOrNegInf_ne_nan H b.initiative
    rcases hab with hab | ⟨eab, ta, tb, hta, htb, nab⟩
    · rcases hbc with hbc | ⟨ebc, _⟩
      · exact Or.inl (JSNum.sub_isNeg_trans hnb hab hbc)
      · exact Or.inl (by rw [← ebc]; exact hab)
    · rcases hbc with hbc | ⟨ebc, tb2, tc, htb2, htc, nbc⟩
      · exact Or.inl (by rw [eab]; exact hbc)
      · rw [htb] at htb2
        cases htb2
        refine Or.inr ⟨eab.trans ebc, ta, tc, hta, htc, ?_⟩
        have hab0 : H.localeCompare ta.name tb.name ≤ 0 := by
          rcases nab with h | ⟨h, _⟩ <;> omega
        have hbc0 : H.localeCompare tb.name tc.name ≤ 0 := by
          rcases nbc with h | ⟨h, _⟩ <;> omega
        have hac0 := htrans _ _ _ hab0 hbc0
        by_cases hac : H.localeCompare ta.name tc.name = 0
        · right
          refine ⟨hac, ?_⟩
          have hca : H.localeCompare tc.name ta.name ≤ 0 :=
            le_of_eq (localeCompare_zero_symm H hanti _ _ hac)
          have hba := htrans _ _ _ hbc0 hca
          have hcb := htrans _ _ _ hca hab0
          have h1 := hanti tb.name ta.name
          have h2 := hanti tc.name tb.name
          have hab1 : jsStringLt b.id a.id = false := by
            rcases nab with h | ⟨_, h⟩
            · omega
            · exact h
          have hbc1 : jsStringLt c.id b.id = false := by
            rcases nbc with h | ⟨_, h⟩
            · omega
            · exact h
          exact jsStringLt_not_trans _ _ _ hab1 hbc1
        · left; omega

/-- Witness for C2: the sample host compares names by length, a total preorder; two
combatants with equal initiative and names of equal length are ordered by id. -/
theorem sortCombatants_strict_total_order_witness :
    (∀ s t, sampleHost.localeCompare t s < 0 ↔ 0 < sampleHost.localeCompare s t) ∧
    (∀ s t u, sampleHost.localeCompare s t ≤ 0 → sampleHost.localeCompare t u ≤ 0 →
      sampleHost.localeCompare s u ≤ 0) ∧
    _sortCombatants sampleHost (sampleCombatant "b" (.num (.ofInt 3)) "Orc")
      (sampleCombatant "a" (.num (.ofInt 3)) "Imp") = .ok (.ofInt 1) ∧
    _sortCombatants sampleHost (sampleCombatant "a" (.num (.ofInt 3)) "Imp")
      (sampleCombatant "b" (.num (.ofInt 3)) "Orc") = .ok (.ofInt (-1)) := by
  have h1 : ∀ s t, sampleHost.localeCompare t s < 0 ↔ 0 < sampleHost.localeCompare s t := by
    intro s t; simp only [sampleHost]; omega
  have h2 : ∀ s t u, sampleHost.localeCompare s t ≤ 0 → sampleHost.localeCompare t u ≤ 0 →
      sampleHost.localeCompare s u ≤ 0 := by
    intro s t u; simp only [sampleHost]; omega
  have h := sortCombatants_strict_total_order sampleHost h1 h2
  refine ⟨h1, h2, ?_, ?_⟩
  · rw [h.2.2.1 (sampleCombatant "b" (.num (.ofInt 3)) "Orc")
      (sampleCombatant "a" (.num (.ofInt 3)) "Imp") ⟨"Orc"⟩ ⟨"Imp"⟩ rfl rfl rfl]
    rw [if_neg (by decide), if_pos (by decide)]
  · rw [h.2.2.1 (sampleCombatant "a" (.num (.ofInt 3)) "Imp")
      (sampleCombatant "b" (.num (.ofInt 3)) "Orc") ⟨"Imp"⟩ ⟨"Orc"⟩ rfl rfl rfl]
    rw [if_neg (by decide), if_neg (by decide)]

/-- C2, the input that departs from it: two combatants with different ids and the same
initiative, the first without a token. The comparator returns no number: reading
`a.token.name` throws. -/
theorem sortCombatants_throws_without_token :
    (tokenlessCombatant "a" (.num (.ofInt 3))).id ≠
      (sampleCombatant "b" (.num (.ofInt 3)) "Imp").id ∧
    _sortCombatants sampleHost (tokenlessCombatant "a" (.num (.ofInt 3)))
      (sampleCombatant "b" (.num (.ofInt 3)) "Imp") = .error (.typeError "a.token is null") ∧
    ¬ ∃ r, _sortCombatants sampleHost (tokenlessCombatant "a" (.num (.ofInt 3)))
      (sampleCombatant "b" (.num (.ofInt 3)) "Imp") = .ok r := by
  have ht : ((initiativeOrNegInf sampleHost (tokenlessCombatant "a" (.num (.ofInt 3))).initiative).sub
      (initiativeOrNegInf sampleHost
        (sampleCombatant "b" (.num (.ofInt 3)) "Imp").initiative)).truthy = false :=
    (JSNum.sub_truthy_iff (initiativeOrNegInf_ne_nan _ _) (initiativeOrNegInf_ne_nan _ _)).mpr rfl
  have he : _sortCombatants sampleHost (tokenlessCombatant "a" (.num (.ofInt 3)))
      (sampleCombatant "b" (.num (.ofInt 3)) "Imp") = .error (.typeError "a.token is null") := by
    simp only [_sortCombatants, ht, Bool.false_eq_true, if_false]
    rfl
  refine ⟨by decide, he, ?_⟩
  rintro ⟨r, hr⟩
  rw [he] at hr
  cases hr

/-- The ids U+1F600 and U+FF5E: the first is the smaller in code units (its first unit is
the surrogate `0xD83D`), although its code point is the larger. -/
theorem jsStringLt_surrogate_below_bmp :
    jsStringLt "😀" "～" = true ∧ jsStringLt "～" "😀" = false := by
  decide

/-! ## Round reset -/

theorem resetLoop_combatants (cs : List Combatant) :
    (resetLoop cs).1 = cs.map updateSourceNull := by
  induction cs with
  | nil => rfl
  | cons c rest ih => simp [resetLoop, ih]

theorem resetLoop_trace (cs : List Combatant) :
    (resetLoop cs).2 = cs.map (fun c => Event.updateSource c.id) := by
  induction cs with
  | nil => rfl
  | cons c rest ih => simp [resetLoop, ih]

theorem resetCalls_append (t1 t2 : List Event) :
    resetCalls (t1 ++ t2) = resetCalls t1 ++ resetCalls t2 := by
  induction t1 with
  | nil => rfl
  | cons e rest ih => cases e <;> simp [resetCalls, ih]

theorem resetCalls_updateSource (cs : List Combatant) :
    resetCalls (cs.map (fun c => Event.updateSource c.id)) = [] := by
  induction cs with
  | nil => rfl
  | cons c rest ih => simp [resetCalls, ih]

/-- C3: on a round advance with `opts.direction >= 0` the hook sets the initiative-selections
flag of every combatant to the explicit value `null` (one `updateSource` call per combatant,
in collection order) and only then invokes the underlying reset, exactly once, as the last
call, on a combat in which every combatant's flag is `null`; with `opts.direction < 0` the
hook leaves the combat as it is and makes no call at all. -/
theorem combatRoundHook_clears_then_resets (env : Collaborators) (combat : Combat) (d : Int) :
    (0 ≤ d →
      (combatRoundHook env combat (some d)).trace =
        combat.combatants.map (fun c => Event.updateSource c.id) ++
          [Event.wrappedResetAll ⟨combat.combatants.map updateSourceNull⟩] ∧
      resetCalls (combatRoundHook env combat (some d)).trace =
        [⟨combat.combatants.map updateSourceNull⟩] ∧
      (∀ c ∈ combat.combatants.map updateSourceNull, c.flagInitiativeSelections = .null) ∧
      (combat.combatants.map updateSourceNull).map (fun c => c.id) =
        combat.combatants.map (fun c => c.id) ∧
      (combatRoundHook env combat (some d)).error = none) ∧
    (d < 0 → combatRoundHook env combat (some d) = ⟨combat, [], none⟩) := by
  constructor
  · intro hd
    have hnot : ¬ d < 0 := by omega
    have htrace : (combatRoundHook env combat (some d)).trace =
        combat.combatants.map (fun c => Event.updateSource c.id) ++
          [Event.wrappedResetAll ⟨combat.combatants.map updateSourceNull⟩] := by
      simp [combatRoundHook, hnot, resetAll, resetLoop_combatants, resetLoop_trace]
    refine ⟨htrace, ?_, ?_, ?_, ?_⟩
    · rw [htrace, resetCalls_append, resetCalls_updateSource]; rfl
    · intro c hc
      obtain ⟨c0, _, rfl⟩ := List.mem_map.mp hc
      rfl
    · simp [List.map_map, Function.comp_def, updateSourceNull]
    · simp [combatRoundHook, hnot, resetAll]
  · intro hd
    simp [combatRoundHook, hd]

/-- Witness for C3: a forward round advance on a combat of two combatants with recorded
selections, and a backward one. -/
theorem combatRoundHook_clears_then_resets_witness :
    resetCalls (combatRoundHook sampleEnv sampleCombat (some 1)).trace =
      [⟨sampleCombat.combatants.map updateSourceNull⟩] ∧
    combatRoundHook sampleEnv sampleCombat (some (-1)) = ⟨sampleCombat, [], none⟩ :=
  ⟨((combatRoundHook_clears_then_resets sampleEnv sampleCombat 1).1 (by decide)).2.1,
    (combatRoundHook_clears_then_resets sampleEnv sampleCombat (-1)).2 (by decide)⟩

/-! ## Bulk roll entry points -/

theorem selectCalls_append (t1 t2 : List Event) :
    selectCalls (t1 ++ t2) = selectCalls t1 ++ selectCalls t2 := by
  induction t1 with
  | nil => rfl
  | cons e rest ih => cases e <;> simp [selectCalls, ih]

theorem rollCalls_append (t1 t2 : List Event) :
    rollCalls (t1 ++ t2) = rollCalls t1 ++ rollCalls t2 := by
  induction t1 with
  | nil => rfl
  | cons e rest ih => cases e <;> simp [rollCalls, ih]

theorem loopBody_selectCalls (env : Collaborators) (st : LoopState) (id : String) :
    selectCalls (loopBody env st id).trace = selectCalls st.trace := by
  unfold loopBody
  split
  · rfl
  · split
    · rfl
    · split <;> simp [selectCalls_append, selectCalls]

theorem foldl_loopBody_selectCalls (env : Collaborators) (ids : List String) (st : LoopState) :
    selectCalls (ids.foldl (loopBody env) st).trace = selectCalls st.trace := by
  induction ids generalizing st with
  | nil => rfl
  | cons id rest ih => rw [List.foldl_cons, ih, loopBody_selectCalls]

theorem dialogsThenRoll_selectCalls (env : Collaborators) (combat : Combat) (ids : List String)
    (opts : Opts) (trace : List Event) :
    selectCalls (dialogsThenRoll env combat ids opts trace).trace = selectCalls trace := by
  unfold dialogsThenRoll
  simp only []
  split
  · exact foldl_loopBody_selectCalls env ids _
  · simp [selectCalls_append, selectCalls, foldl_loopBody_selectCalls]

theorem rollInitiative_selectCalls (env : Collaborators) (combat : Combat) (ids : List String)
    (opts : Opts) : selectCalls (rollInitiative env combat ids opts).trace = [] := by
  unfold rollInitiative
  simp only []
  split
  · rfl
  · rw [dialogsThenRoll_selectCalls]; rfl
  · split
    · rw [dialogsThenRoll_selectCalls]; rfl
    · rfl

theorem setMultipleCombatants_selectCalls (env : Collaborators) (combat : Combat)
    (ids : List String) (opts : Opts) :
    selectCalls (setMultipleCombatants env combat ids opts).trace = [(ids, opts)] := by
  unfold setMultipleCombatants
  simp only []
  split
  · rfl
  · split
    · rfl
    · simp [selectCalls, rollInitiative_selectCalls]

/-- C5: the candidate id list that `rollAll` hands to the selection-gathering routine is
exactly the ids, in collection order, of the combatants whose initiative is null, so every id
in it is the id of a combatant with a null initiative; the list that `rollNPC` hands on is
exactly the sublist of those whose NPC flag is true, so every id in it is the id of a
combatant with a true NPC flag and a null initiative. Each of the two makes exactly one such
call, with the options it was given. -/
theorem rollAll_rollNPC_candidates (env : Collaborators) (combat : Combat) (options : Opts) :
    selectCalls (rollAll env combat options).trace =
      [((combat.combatants.filter (fun c => c.initiative = .null)).map (fun c => c.id),
        options)] ∧
    (∀ id ∈ (combat.combatants.filter (fun c => c.initiative = .null)).map (fun c => c.id),
      ∃ c ∈ combat.combatants, c.id = id ∧ c.initiative = .null) ∧
    selectCalls (rollNPC env combat options).trace =
      [(((combat.combatants.filter (fun c => c.initiative = .null)).filter
          (fun c => c.isNPC)).map (fun c => c.id), options)] ∧
    (∀ id ∈ ((combat.combatants.filter (fun c => c.initiative = .null)).filter
          (fun c => c.isNPC)).map (fun c => c.id),
      ∃ c ∈ combat.combatants, c.id = id ∧ c.isNPC = true ∧ c.initiative = .null) := by
  refine ⟨?_, ?_, ?_, ?_⟩
  · rw [rollAll, setMultipleCombatants_selectCalls, rollAllIds]
    rfl
  · intro id hid
    obtain ⟨c, hc, rfl⟩ := List.mem_map.mp hid
    rw [List.mem_filter] at hc
    exact ⟨c, hc.1, rfl, by simpa using hc.2⟩
  · rw [rollNPC, setMultipleCombatants_selectCalls, rollNPCIds, List.filter_filter]
    rfl
  · intro id hid
    obtain ⟨c, hc, rfl⟩ := List.mem_map.mp hid
    rw [List.mem_filter, List.mem_filter] at hc
    exact ⟨c, hc.1.1, rfl, hc.2, by simpa using hc.1.2⟩

/-! ## The per-combatant loop -/

theorem get_id_eq (combat : Combat) (id : String) (c : Combatant)
    (h : combat.get id = some c) : c.id = id := by
  have := List.find?_some h
  simpa using this

theorem get_persistSelections (combat : Combat) (j : String) (sel : Selections) (id : String) :
    (persistSelections combat j sel).get id =
      (combat.get id).map (fun c =>
        if c.id == j then
          { c with initiativeHandler :=
              { c.initiativeHandler with initiativeSelections := some sel } }
        else c) := by
  unfold Combat.get persistSelections
  simp only [List.find?_map]
  congr 2
  funext c
  by_cases h : (c.id == j) = true <;> simp [Function.comp, h]

theorem selectionsOf_persist_ne (combat : Combat) (j : String) (sel : Selections) (id : String)
    (h : id ≠ j) :
    selectionsOf (persistSelections combat j sel) id = selectionsOf combat id := by
  unfold selectionsOf
  rw [get_persistSelections]
  cases hg : combat.get id with
  | none => rfl
  | some c =>
    have hc := get_id_eq combat id c hg
    have : ¬ c.id = j := by rw [hc]; exact h
    simp [this]

theorem selectionsOf_persist_self (combat : Combat) (j : String) (sel : Selections)
    (h : lacksSelections combat j = true) :
    selectionsOf (persistSelections combat j sel) j = some (some sel) := by
  unfold lacksSelections at h
  unfold selectionsOf at h ⊢
  rw [get_persistSelections]
  cases hg : combat.get j with
  | none => rw [hg] at h; simp at h
  | some c =>
    have hc := get_id_eq combat j c hg
    simp [hc]

theorem loopBody_of_not_lacks (env : Collaborators) (st : LoopState) (id : String)
    (h : lacksSelections st.combat id = false) : loopBody env st id = st := by
  unfold loopBody
  unfold lacksSelections selectionsOf at h
  cases hg : st.combat.get id with
  | none => rfl
  | some c =>
    rw [hg] at h
    cases hs : c.initiativeHandler.initiativeSelections with
    | none => simp [hs] at h
    | some s => simp [hs]

theorem loopBody_of_canceled (env : Collaborators) (st : LoopState) (id : String)
    (h : lacksSelections st.combat id = true) (hd : env.initiativeDialogs id = none) :
    loopBody env st id =
      { st with ids := setDelete st.ids id, trace := st.trace ++ [.initiativeDialogs id] } := by
  unfold loopBody
  unfold lacksSelections selectionsOf at h
  cases hg : st.combat.get id with
  | none => rw [hg] at h; simp at h
  | some c =>
    rw [hg] at h
    cases hs : c.initiativeHandler.initiativeSelections with
    | none => simp [hs, hd]
    | some s => simp [hs] at h

theorem loopBody_of_selected (env : Collaborators) (st : LoopState) (id : String)
    (sel : Selections)
    (h : lacksSelections st.combat id = true) (hd : env.initiativeDialogs id = some sel) :
    loopBody env st id =
      { st with combat := persistSelections st.combat id sel,
                trace := st.trace ++ [.initiativeDialogs id, .setInitiativeSelections id sel] } := by
  unfold loopBody
  unfold lacksSelections selectionsOf at h
  cases hg : st.combat.get id with
  | none => rw [hg] at h; simp at h
  | some c =>
    rw [hg] at h
    cases hs : c.initiativeHandler.initiativeSelections with
    | none => simp [hs, hd]
    | some s => simp [hs] at h

theorem lacksSelections_congr {c1 c2 : Combat} {id : String}
    (h : selectionsOf c1 id = selectionsOf c2 id) :
    lacksSelections c1 id = lacksSelections c2 id := by
  unfold lacksSelections; rw [h]

/-- One pass of the loop body, told from the combat the loop started with. -/
theorem loopBody_spec (env : Collaborators) (combat0 : Combat) (st : LoopState) (id : String)
    (h : selectionsOf st.combat id = selectionsOf combat0 id) :
    (loopBody env st id).trace = st.trace ++ dialogCalls env combat0 id ∧
    (loopBody env st id).ids =
      st.ids.filter (fun x => !(x == id && dialogCanceled env combat0 x)) ∧
    (∀ x, x ≠ id → selectionsOf (loopBody env st id).combat x = selectionsOf st.combat x) ∧
    (∀ sel, lacksSelections combat0 id = true → env.initiativeDialogs id = some sel →
      selectionsOf (loopBody env st id).combat id = some (some sel)) := by
  have hl := lacksSelections_congr h
  cases hlack : lacksSelections combat0 id with
  | false =>
    rw [hlack] at hl
    rw [loopBody_of_not_lacks env st id hl]
    refine ⟨by simp [dialogCalls, hlack], ?_, fun _ _ => rfl, by simp⟩
    symm
    rw [List.filter_eq_self]
    intro x _
    by_cases hx : x = id
    · subst hx; simp [dialogCanceled, hlack]
    · simp [hx]
  | true =>
    rw [hlack] at hl
    cases hd : env.initiativeDialogs id with
    | none =>
      rw [loopBody_of_canceled env st id hl hd]
      refine ⟨by simp [dialogCalls, hlack, hd], ?_, fun _ _ => rfl, by simp⟩
      simp only [setDelete]
      apply List.filter_congr
      intro x _
      by_cases hx : x = id
      · subst hx; simp [dialogCanceled, hlack, hd]
      · have hb : (x == id) = false := by simpa using hx
        simp [hx, hb]
    | some sel =>
      rw [loopBody_of_selected env st id sel hl hd]
      refine ⟨by simp [dialogCalls, hlack, hd], ?_, ?_, ?_⟩
      · symm
        rw [List.filter_eq_self]
        intro x _
        by_cases hx : x = id
        · subst hx; simp [dialogCanceled, hd]
        · simp [hx]
      · intro x hx
        exact selectionsOf_persist_ne _ _ _ _ hx
      · intro sel2 _ hsel2
        cases hsel2
        exact selectionsOf_persist_self _ _ _ hl

/-- The whole loop, told from the combat it started with. -/
theorem foldl_loopBody_spec (env : Collaborators) (combat0 : Combat) :
    ∀ (rest : List String) (st : LoopState), rest.Nodup →
      (∀ id ∈ rest, selectionsOf st.combat id = selectionsOf combat0 id) →
      (rest.foldl (loopBody env) st).trace =
        st.trace ++ rest.flatMap (dialogCalls env combat0) ∧
      (rest.foldl (loopBody env) st).ids =
        st.ids.filter (fun x => !(decide (x ∈ rest) && dialogCanceled env combat0 x)) ∧
      (∀ x, x ∉ rest →
        selectionsOf (rest.foldl (loopBody env) st).combat x = selectionsOf st.combat x) ∧
      (∀ id ∈ rest, ∀ sel, lacksSelections combat0 id = true →
        env.initiativeDialogs id = some sel →
        selectionsOf (rest.foldl (loopBody env) st).combat id = some (some sel)) := by
  intro rest
  induction rest with
  | nil =>
    intro st _ _
    refine ⟨by simp, ?_, fun _ _ => rfl, by simp⟩
    symm
    show List.filter _ st.ids = st.ids
    rw [List.filter_eq_self]
    intro x _
    simp
  | cons id rest ih =>
    intro st hnd hinv
    rw [List.nodup_cons] at hnd
    obtain ⟨hs1, hs2, hs3, hs4⟩ :=
      loopBody_spec env combat0 st id (hinv id (List.mem_cons_self _ _))
    have hinv2 : ∀ x ∈ rest,
        selectionsOf (loopBody env st id).combat x = selectionsOf combat0 x := by
      intro x hx
      have hne : x ≠ id := fun h => hnd.1 (h ▸ hx)
      rw [hs3 x hne]
      exact hinv x (List.mem_cons_of_mem _ hx)
    obtain ⟨ih1, ih2, ih3, ih4⟩ := ih (loopBody env st id) hnd.2 hinv2
    rw [List.foldl_cons]
    refine ⟨?_, ?_, ?_, ?_⟩
    · rw [ih1, hs1, List.flatMap_cons, List.append_assoc]
    · rw [ih2, hs2, List.filter_filter]
      apply List.filter_congr
      intro x _
      by_cases hx : x = id
      · subst hx
        simp [hnd.1]
      · simp [hx]
    · intro x hx
      rw [List.mem_cons, not_or] at hx
      rw [ih3 x hx.2, hs3 x hx.1]
    · intro x hx sel hl hd
      rcases List.mem_cons.mp hx with heq | hmem
      · subst heq
        rw [ih3 x hnd.1]
        exact hs4 sel hl hd
      · exact ih4 x hmem sel hl hd

theorem lacksSelections_iff (combat : Combat) (id : String) :
    lacksSelections combat id = true ↔
      ∃ c, combat.get id = some c ∧ c.initiativeHandler.initiativeSelections = none := by
  unfold lacksSelections selectionsOf
  cases hg : combat.get id with
  | none => simp
  | some c => simp

theorem mem_dialogCalls_dialog (env : Collaborators) (combat : Combat) (x id : String) :
    Event.initiativeDialogs id ∈ dialogCalls env combat x ↔
      x = id ∧ lacksSelections combat id = true := by
  unfold dialogCalls
  by_cases hl : lacksSelections combat x = true
  · cases hd : env.initiativeDialogs x with
    | none =>
      simp only [hl, if_true, List.mem_singleton, Event.initiativeDialogs.injEq]
      constructor
      · intro h; subst h; exact ⟨rfl, hl⟩
      · intro h; exact h.1.symm
    | some sel =>
      simp only [hl, if_true, List.mem_cons, Event.initiativeDialogs.injEq, List.mem_singleton,
        reduceCtorEq, or_false, List.not_mem_nil]
      constructor
      · intro h; subst h; exact ⟨rfl, hl⟩
      · intro h; exact h.1.symm
  · simp only [hl, Bool.false_eq_true, if_false, List.not_mem_nil, false_iff, not_and]
    intro h; subst h; exact hl

theorem mem_dialogCalls_persist (env : Collaborators) (combat : Combat) (x id : String)
    (sel : Selections) :
    Event.setInitiativeSelections id sel ∈ dialogCalls env combat x ↔
      x = id ∧ lacksSelections combat id = true ∧ env.initiativeDialogs id = some sel := by
  unfold dialogCalls
  by_cases hl : lacksSelections combat x = true
  · cases hd : env.initiativeDialogs x with
    | none =>
      simp only [hl, if_true, List.mem_singleton, reduceCtorEq, false_iff, not_and]
      intro h _; subst h; simp [hd]
    | some sel2 =>
      simp only [hl, if_true, List.mem_cons, reduceCtorEq, Event.setInitiativeSelections.injEq,
        List.mem_singleton, false_or, List.not_mem_nil, or_false]
      constructor
      · rintro ⟨h1, h2⟩; subst h1; subst h2; exact ⟨rfl, hl, hd⟩
      · rintro ⟨h1, _, h3⟩; subst h1; rw [hd] at h3; cases h3; exact ⟨rfl, rfl⟩
  · simp only [hl, Bool.false_eq_true, if_false, List.not_mem_nil, false_iff, not_and]
    intro h; subst h; intro h2; exact absurd h2 hl

theorem rollCalls_dialogCalls (env : Collaborators) (combat : Combat) (ws : List String) :
    rollCalls (ws.flatMap (dialogCalls env combat)) = [] := by
  induction ws with
  | nil => rfl
  | cons x rest ih =>
    rw [List.flatMap_cons, rollCalls_append, ih]
    unfold dialogCalls
    split
    · split <;> rfl
    · rfl

/-- C9: for every working set `ws` entering the per-combatant loop and every outcome of the
individual dialogs, the ids passed to the underlying roll are exactly `ws` without the ids of
existing combatants that had no recorded selections and whose dialog returned a falsy result,
in the order of `ws` and together with the original options, and the underlying roll is not
invoked when that set is empty; a dialog is requested exactly for the ids of `ws` whose
combatant exists and has no recorded selections; selections are persisted exactly for those
of them whose dialog returned selections, with those selections; and the loop throws no
error. -/
theorem dialogsThenRoll_cancel_removes_only_that_id (env : Collaborators) (combat : Combat)
    (ws : List String) (opts : Opts) (trace : List Event) (hws : ws.Nodup) :
    ∃ calls, (dialogsThenRoll env combat ws opts trace).trace = trace ++ calls ∧
      rollCalls calls =
        (if ws.filter (fun id => !dialogCanceled env combat id) = [] then []
         else [(ws.filter (fun id => !dialogCanceled env combat id), opts)]) ∧
      (∀ id, id ∈ ws.filter (fun id => !dialogCanceled env combat id) ↔
        id ∈ ws ∧ ¬ ∃ c, combat.get id = some c ∧
          c.initiativeHandler.initiativeSelections = none ∧ env.initiativeDialogs id = none) ∧
      (∀ id, Event.initiativeDialogs id ∈ calls ↔
        id ∈ ws ∧ ∃ c, combat.get id = some c ∧
          c.initiativeHandler.initiativeSelections = none) ∧
      (∀ id sel, Event.setInitiativeSelections id sel ∈ calls ↔
        id ∈ ws ∧ (∃ c, combat.get id = some c ∧
          c.initiativeHandler.initiativeSelections = none) ∧
          env.initiativeDialogs id = some sel) ∧
      (∀ id ∈ ws, ∀ sel, (∃ c, combat.get id = some c ∧
          c.initiativeHandler.initiativeSelections = none) →
        env.initiativeDialogs id = some sel →
        selectionsOf (dialogsThenRoll env combat ws opts trace).combat id = some (some sel)) ∧
      (dialogsThenRoll env combat ws opts trace).error = none := by
  obtain ⟨h1, h2, _, h4⟩ :=
    foldl_loopBody_spec env combat ws ⟨combat, ws, trace⟩ hws (fun _ _ => rfl)
  have hids : (ws.foldl (loopBody env) ⟨combat, ws, trace⟩).ids =
      ws.filter (fun id => !dialogCanceled env combat id) := by
    rw [h2]
    apply List.filter_congr
    intro x hx
    simp [hx]
  have hmem : ∀ id, id ∈ ws.filter (fun id => !dialogCanceled env combat id) ↔
      id ∈ ws ∧ ¬ ∃ c, combat.get id = some c ∧
        c.initiativeHandler.initiativeSelections = none ∧ env.initiativeDialogs id = none := by
    intro id
    rw [List.mem_filter]
    apply and_congr_right
    intro _
    simp only [dialogCanceled, Bool.not_and, Bool.or_eq_true, Bool.not_eq_true',
      Option.isNone_iff_eq_none]
    constructor
    · rintro h ⟨c, hc1, hc2, hc3⟩
      have hl := (lacksSelections_iff combat id).mpr ⟨c, hc1, hc2⟩
      rcases h with h | h
      · rw [hl] at h; cases h
      · simp [hc3] at h
    · intro h
      by_cases hl : lacksSelections combat id = true
      · right
        obtain ⟨c, hc1, hc2⟩ := (lacksSelections_iff combat id).mp hl
        cases hd : env.initiativeDialogs id with
        | none => exact absurd ⟨c, hc1, hc2, hd⟩ h
        | some s => simp
      · left; simpa using hl
  have hdlg : ∀ id, Event.initiativeDialogs id ∈ ws.flatMap (dialogCalls env combat) ↔
      id ∈ ws ∧ ∃ c, combat.get id = some c ∧
        c.initiativeHandler.initiativeSelections = none := by
    intro id
    rw [List.mem_flatMap, ← lacksSelections_iff]
    constructor
    · rintro ⟨x, hx, hm⟩
      obtain ⟨rfl, hl⟩ := (mem_dialogCalls_dialog env combat x id).mp hm
      exact ⟨hx, hl⟩
    · rintro ⟨hx, hl⟩
      exact ⟨id, hx, (mem_dialogCalls_dialog env combat id id).mpr ⟨rfl, hl⟩⟩
  have hper : ∀ id sel,
      Event.setInitiativeSelections id sel ∈ ws.flatMap (dialogCalls env combat) ↔
      id ∈ ws ∧ (∃ c, combat.get id = some c ∧
        c.initiativeHandler.initiativeSelections = none) ∧
        env.initiativeDialogs id = some sel := by
    intro id sel
    rw [List.mem_flatMap, ← lacksSelections_iff]
    constructor
    · rintro ⟨x, hx, hm⟩
      obtain ⟨rfl, hl, hd⟩ := (mem_dialogCalls_persist env combat x id sel).mp hm
      exact ⟨hx, hl, hd⟩
    · rintro ⟨hx, hl, hd⟩
      exact ⟨id, hx, (mem_dialogCalls_persist env combat id id sel).mpr ⟨rfl, hl, hd⟩⟩
  have hst : ∀ id ∈ ws, ∀ sel, (∃ c, combat.get id = some c ∧
        c.initiativeHandler.initiativeSelections = none) →
      env.initiativeDialogs id = some sel →
      selectionsOf (ws.foldl (loopBody env) ⟨combat, ws, trace⟩).combat id =
        some (some sel) := by
    intro id hid sel hl hd
    exact h4 id hid sel ((lacksSelections_iff combat id).mpr hl) hd
  by_cases hk : ws.filter (fun id => !dialogCanceled env combat id) = []
  · have hlen : ((ws.foldl (loopBody env) ⟨combat, ws, trace⟩).ids.length == 0) = true := by
      rw [hids, hk]; rfl
    refine ⟨ws.flatMap (dialogCalls env combat), ?_, ?_, hmem, hdlg, hper, ?_, ?_⟩
    · simp only [dialogsThenRoll, hlen, if_true]; exact h1
    · rw [rollCalls_dialogCalls, if_pos hk]
    · simp only [dialogsThenRoll, hlen, if_true]; exact hst
    · simp only [dialogsThenRoll, hlen, if_true]
  · have hlen : ((ws.foldl (loopBody env) ⟨combat, ws, trace⟩).ids.length == 0) = false := by
      rw [hids]
      cases hf : ws.filter (fun id => !dialogCanceled env combat id) with
      | nil => exact absurd hf hk
      | cons a l => rfl
    refine ⟨ws.flatMap (dialogCalls env combat) ++
      [.wrappedRollInitiative (ws.filter (fun id => !dialogCanceled env combat id)) opts],
      ?_, ?_, hmem, ?_, ?_, ?_, ?_⟩
    · simp only [dialogsThenRoll, hlen, Bool.false_eq_true, if_false]
      rw [h1, hids, List.append_assoc]
    · rw [rollCalls_append, rollCalls_dialogCalls, if_neg hk]; rfl
    · intro id
      rw [List.mem_append, hdlg]; simp
    · intro id sel
      rw [List.mem_append, hper]; simp
    · simp only [dialogsThenRoll, hlen, Bool.false_eq_true, if_false]; exact hst
    · simp only [dialogsThenRoll, hlen, Bool.false_eq_true, if_false]

/-! ## The grouped-actor step -/

theorem groupCalls_append (t1 t2 : List Event) :
    groupCalls (t1 ++ t2) = groupCalls t1 ++ groupCalls t2 := by
  induction t1 with
  | nil => rfl
  | cons e rest ih => cases e <;> simp [groupCalls, ih]

theorem loopBody_groupCalls (env : Collaborators) (st : LoopState) (id : String) :
    groupCalls (loopBody env st id).trace = groupCalls st.trace := by
  unfold loopBody
  split
  · rfl
  · split
    · rfl
    · split <;> simp [groupCalls_append, groupCalls]

theorem foldl_loopBody_groupCalls (env : Collaborators) (ids : List String) (st : LoopState) :
    groupCalls (ids.foldl (loopBody env) st).trace = groupCalls st.trace := by
  induction ids generalizing st with
  | nil => rfl
  | cons id rest ih => rw [List.foldl_cons, ih, loopBody_groupCalls]

theorem dialogsThenRoll_groupCalls (env : Collaborators) (combat : Combat) (ids : List String)
    (opts : Opts) (trace : List Event) :
    groupCalls (dialogsThenRoll env combat ids opts trace).trace = groupCalls trace := by
  unfold dialogsThenRoll
  simp only []
  split
  · exact foldl_loopBody_groupCalls env ids _
  · simp [groupCalls_append, groupCalls, foldl_loopBody_groupCalls]

/-- When the grouped-actor step asks for the group dialog, the four conditions hold. -/
theorem groupCandidates_some (env : Collaborators) (combat : Combat) (ws : List String)
    (opts : Opts) (newIds : List String)
    (h : groupCandidates env combat ws opts = .ok (some newIds)) :
    ws.length = 1 ∧ opts.actor = none ∧ env.groupActors = true ∧
      ∃ id c actor, ws = [id] ∧ combat.get id = some c ∧ c.actor = some actor ∧
        actor.isToken = true := by
  unfold groupCandidates at h
  split at h
  · rename_i hc
    simp only [Bool.and_eq_true, Option.isNone_iff_eq_none, beq_iff_eq] at hc
    obtain ⟨⟨ha, hlen⟩, hg⟩ := hc
    match ws, hlen with
    | [id], _ =>
      simp only [List.head?_cons] at h
      split at h
      · cases h
      · rename_i c hget
        split at h
        · cases h
        · rename_i actor hact
          split at h
          · rename_i htok
            exact ⟨rfl, ha, hg, id, c, actor, rfl, hget, hact, htok⟩
          · cases h
  · cases h

/-- When one of the four conditions fails, the grouped-actor step does nothing. -/
theorem groupCandidates_none (env : Collaborators) (combat : Combat) (ws : List String)
    (opts : Opts)
    (h : ws.length ≠ 1 ∨ opts.actor ≠ none ∨ env.groupActors = false ∨
      ∃ id c actor, ws = [id] ∧ combat.get id = some c ∧ c.actor = some actor ∧
        actor.isToken = false) :
    groupCandidates env combat ws opts = .ok none := by
  unfold groupCandidates
  split
  · rename_i hc
    simp only [Bool.and_eq_true, Option.isNone_iff_eq_none, beq_iff_eq] at hc
    obtain ⟨⟨ha, hlen⟩, hg⟩ := hc
    rcases h with h | h | h | ⟨id, c, actor, hws, hget, hact, htok⟩
    · exact absurd hlen h
    · exact absurd ha h
    · rw [hg] at h; cases h
    · subst hws
      simp [hget, hact, htok]
  · rfl

/-- When the three first conditions hold and the combatant has no actor, the grouped-actor
step throws. -/
theorem groupCandidates_actorless (env : Collaborators) (combat : Combat) (opts : Opts)
    (id : String) (c : Combatant) (ha : opts.actor = none) (hg : env.groupActors = true)
    (hget : combat.get id = some c) (hact : c.actor = none) :
    groupCandidates env combat [id] opts = .error (.typeError "combatant.actor is null") := by
  simp [groupCandidates, ha, hg, hget, hact]

/-- C6, as amended: in `rollInitiative` the group dialog is requested only if all four
conditions hold: the supplied ids form a set of exactly one id, `opts.actor` is not given,
the GROUP_ACTORS setting is true, and that combatant's actor is token-specific. Whenever the
id set is not exactly one id, `opts.actor` is given, the setting is false, or the combatant
has an actor that is not token-specific, no group dialog is requested and the per-combatant
loop is entered with exactly the original id set (and the unchanged combat). When the first
three conditions hold and the combatant has no actor, `rollInitiative` throws a TypeError
without having made any call. -/
theorem rollInitiative_group_only_if (env : Collaborators) (combat : Combat)
    (combatantIds : List String) (opts : Opts) :
    (groupCalls (rollInitiative env combat combatantIds opts).trace ≠ [] →
      (mkSet combatantIds).length = 1 ∧ opts.actor = none ∧ env.groupActors = true ∧
      ∃ id c actor, mkSet combatantIds = [id] ∧ combat.get id = some c ∧
        c.actor = some actor ∧ actor.isToken = true) ∧
    ((mkSet combatantIds).length ≠ 1 ∨ opts.actor ≠ none ∨ env.groupActors = false ∨
      (∃ id c actor, mkSet combatantIds = [id] ∧ combat.get id = some c ∧
        c.actor = some actor ∧ actor.isToken = false) →
      rollInitiative env combat combatantIds opts =
        dialogsThenRoll env combat (mkSet combatantIds) opts [] ∧
      groupCalls (rollInitiative env combat combatantIds opts).trace = []) ∧
    (∀ id c, mkSet combatantIds = [id] → opts.actor = none → env.groupActors = true →
      combat.get id = some c → c.actor = none →
      rollInitiative env combat combatantIds opts =
        ⟨combat, [], some (.typeError "combatant.actor is null")⟩) := by
  refine ⟨?_, ?_, ?_⟩
  · intro hne
    cases hg : groupCandidates env combat (mkSet combatantIds) opts with
    | error e =>
      exfalso; apply hne
      simp [rollInitiative, hg, groupCalls]
    | ok r =>
      cases r with
      | none =>
        exfalso; apply hne
        simp only [rollInitiative, hg]
        rw [dialogsThenRoll_groupCalls]; rfl
      | some newIds => exact groupCandidates_some env combat _ opts newIds hg
  · intro h
    have hg := groupCandidates_none env combat (mkSet combatantIds) opts h
    have hr : rollInitiative env combat combatantIds opts =
        dialogsThenRoll env combat (mkSet combatantIds) opts [] := by
      simp only [rollInitiative, hg]
    refine ⟨hr, ?_⟩
    rw [hr, dialogsThenRoll_groupCalls]; rfl
  · intro id c hset ha hg hget hact
    have he := groupCandidates_actorless env combat opts id c ha hg hget hact
    simp only [rollInitiative, hset, he]

/-- C8: whenever the grouped-actor step of `rollInitiative` requests the group dialog and the
dialog is canceled, `rollInitiative` returns having made that one call only: the underlying
roll is not invoked, no per-combatant dialog is requested and no selections are persisted. -/
theorem rollInitiative_group_cancel_aborts (env : Collaborators) (combat : Combat)
    (combatantIds : List String) (opts : Opts) (newIds : List String)
    (hreq : groupCandidates env combat (mkSet combatantIds) opts = .ok (some newIds))
    (hcancel : (env.setActionsForMultipleCombatants combat newIds).1 = false) :
    (rollInitiative env combat combatantIds opts).trace =
      [.setActionsForMultipleCombatants newIds] ∧
    rollCalls (rollInitiative env combat combatantIds opts).trace = [] ∧
    (∀ id, Event.initiativeDialogs id ∉ (rollInitiative env combat combatantIds opts).trace) ∧
    (∀ id sel, Event.setInitiativeSelections id sel ∉
      (rollInitiative env combat combatantIds opts).trace) ∧
    (rollInitiative env combat combatantIds opts).combat =
      (env.setActionsForMultipleCombatants combat newIds).2 ∧
    (rollInitiative env combat combatantIds opts).error = none := by
  have hr : rollInitiative env combat combatantIds opts =
      ⟨(env.setActionsForMultipleCombatants combat newIds).2,
        [.setActionsForMultipleCombatants newIds], none⟩ := by
    simp only [rollInitiative, hreq, hcancel, Bool.false_eq_true, if_false]
  rw [hr]
  refine ⟨rfl, rfl, ?_, ?_, rfl, rfl⟩
  · intro id; simp
  · intro id sel; simp

/-! ## Runs on the sample combats -/

/-- Witness for C6: with grouping disabled no group dialog is requested for the single id
"a"; with grouping enabled it is, and the four conditions hold; and for a combatant without
an actor the call throws. -/
theorem rollInitiative_group_only_if_witness :
    groupCalls (rollInitiative ungroupedEnv goblinCombat ["a"] Opts.empty).trace = [] ∧
    (groupCalls (rollInitiative sampleEnv goblinCombat ["a"] Opts.empty).trace ≠ [] ∧
      sampleEnv.groupActors = true) ∧
    rollInitiative sampleEnv actorlessCombat ["a"] Opts.empty =
      ⟨actorlessCombat, [], some (.typeError "combatant.actor is null")⟩ :=
  ⟨((rollInitiative_group_only_if ungroupedEnv goblinCombat ["a"] Opts.empty).2.1
      (Or.inr (Or.inr (Or.inl rfl)))).2,
    ⟨by decide,
      ((rollInitiative_group_only_if sampleEnv goblinCombat ["a"] Opts.empty).1
        (by decide)).2.2.1⟩,
    (rollInitiative_group_only_if sampleEnv actorlessCombat ["a"] Opts.empty).2.2 "a"
      (sampleCombatant "a" .null "Orc") rfl rfl rfl rfl rfl⟩

/-- C6, the input that departs from it: the single combatant "a" has no actor, so its actor
is not token-specific, while the other three conditions hold. No group dialog is requested,
but the per-combatant loop is not entered with the original id set: reading
`combatant.actor.isToken` throws. -/
theorem rollInitiative_throws_without_actor :
    (actorlessCombat.get "a").map (fun c => c.actor) = some none ∧
    mkSet ["a"] = ["a"] ∧ Opts.empty.actor = none ∧ sampleEnv.groupActors = true ∧
    (rollInitiative sampleEnv actorlessCombat ["a"] Opts.empty).error =
      some (.typeError "combatant.actor is null") ∧
    (dialogsThenRoll sampleEnv actorlessCombat (mkSet ["a"]) Opts.empty []).error = none ∧
    rollInitiative sampleEnv actorlessCombat ["a"] Opts.empty ≠
      dialogsThenRoll sampleEnv actorlessCombat (mkSet ["a"]) Opts.empty [] := by
  have h1 : (rollInitiative sampleEnv actorlessCombat ["a"] Opts.empty).error =
      some (.typeError "combatant.actor is null") := rfl
  have h2 : (dialogsThenRoll sampleEnv actorlessCombat (mkSet ["a"]) Opts.empty []).error =
      none := rfl
  refine ⟨rfl, rfl, rfl, rfl, h1, h2, ?_⟩
  intro h
  rw [h, h2] at h1
  cases h1

/-- Witness for C8: the group dialog for the two goblin tokens is requested and canceled. -/
theorem rollInitiative_group_cancel_aborts_witness :
    groupCandidates groupCancelEnv goblinCombat (mkSet ["a"]) Opts.empty =
      .ok (some ["a", "b"]) ∧
    (groupCancelEnv.setActionsForMultipleCombatants goblinCombat ["a", "b"]).1 = false ∧
    (rollInitiative groupCancelEnv goblinCombat ["a"] Opts.empty).trace =
      [.setActionsForMultipleCombatants ["a", "b"]] :=
  ⟨rfl, rfl,
    (rollInitiative_group_cancel_aborts groupCancelEnv goblinCombat ["a"] Opts.empty ["a", "b"]
      rfl rfl).1⟩

/-- Witness for C9: three ids and one that matches no combatant enter the loop; the dialog
of "b" is canceled, and the underlying roll receives the other three. -/
theorem dialogsThenRoll_cancel_removes_only_that_id_witness :
    ["a", "b", "gone", "c"].Nodup ∧
    rollCalls (dialogsThenRoll cancelBEnv freshCombat ["a", "b", "gone", "c"] Opts.empty []).trace
      = [(["a", "gone", "c"], Opts.empty)] := by
  refine ⟨by decide, ?_⟩
  obtain ⟨calls, h1, h2, _⟩ := dialogsThenRoll_cancel_removes_only_that_id cancelBEnv
    freshCombat ["a", "b", "gone", "c"] Opts.empty [] (by decide)
  rw [h1, List.nil_append, h2]
  decide

/-- C7, the run that departs from it: "b" shares the actor of "a" and has recorded selections,
yet the group dialog is requested for both and "b" enters the working set: the filter reads
the handler property `initiativeSelection`, not the recorded `initiativeSelections`. -/
theorem rollInitiative_expansion_adds_selected_combatant :
    selectionsOf goblinCombat "b" = some (some ⟨["attack"]⟩) ∧
    groupCandidates sampleEnv goblinCombat (mkSet ["a"]) Opts.empty = .ok (some ["a", "b"]) ∧
    addAll (mkSet ["a"]) ["a", "b"] = ["a", "b"] ∧
    (rollInitiative sampleEnv goblinCombat ["a"] Opts.empty).trace =
      [.setActionsForMultipleCombatants ["a", "b"], .initiativeDialogs "a",
       .setInitiativeSelections "a" ⟨["attack"]⟩,
       .wrappedRollInitiative ["a", "b"] Opts.empty] := by
  refine ⟨by decide, rfl, by decide, by decide⟩

/-- C4, the runs that depart from it: `rollAll` offers only "a", the collaborator returns it,
and the underlying roll receives "a" and "b" although the initiative of "b" is 7, both when
"b" has recorded selections and when it has none. -/
theorem rollAll_rolls_combatant_with_initiative :
    selectCalls (rollAll sampleEnv goblinCombat Opts.empty).trace = [(["a"], Opts.empty)] ∧
    rollCalls (rollAll sampleEnv goblinCombat Opts.empty).trace = [(["a", "b"], Opts.empty)] ∧
    (goblinCombat.get "b").map (fun c => c.initiative) = some (.num (.ofInt 7)) ∧
    rollCalls (rollAll sampleEnv manualCombat Opts.empty).trace = [(["a", "b"], Opts.empty)] ∧
    rollCalls (rollNPC sampleEnv manualCombat Opts.empty).trace = [(["a", "b"], Opts.empty)] ∧
    (manualCombat.get "b").map (fun c => c.initiative) = some (.num (.ofInt 7)) := by
  refine ⟨by decide, by decide, rfl, by decide, by decide, rfl⟩

/-- C10, the run that departs from it: with grouping enabled, a single id that matches no
combatant makes `rollInitiative` throw when it reads `combatant.actor`; with grouping
disabled the same id is skipped by the loop. -/
theorem rollInitiative_missing_single_id_throws :
    goblinCombat.get "gone" = none ∧
    rollInitiative sampleEnv goblinCombat ["gone"] Opts.empty =
      ⟨goblinCombat, [], some (.typeError "combatant is undefined")⟩ ∧
    rollInitiative ungroupedEnv goblinCombat ["gone"] Opts.empty =
      ⟨goblinCombat, [.wrappedRollInitiative ["gone"] Opts.empty], none⟩ := by
  refine ⟨by decide, rfl, rfl⟩

end ActionInitiative
